import Mathlib

/-!
# Portals4 shared-memory bootstrap: PtlInit / PtlFini and the rank-discovery test

A shallow embedding of `src/shmem/init.c` (the reference-counted
initialisation barrier) and of the address exchange of
`test/test_bootstrap.c`.

Conventions of the embedding.

* `size_t` and pointers are natural numbers below `2^64`, `unsigned int` is a
  natural number below `2^32`; every C assignment that can wrap is written
  with an explicit remainder.
* Everything the operating system or the sibling processes decide is read
  from a `World`: the environment, the page size, the results of `shm_open`,
  `mmap`, `close`, `munmap`, and the bytes that the siblings have written to
  the shared region at each reading instant.
* `assert(e)` follows the C standard: with `ndebug = false` the expression is
  evaluated and a false value aborts the process, with `ndebug = true` the
  expression is not evaluated at all (so calls written inside `assert` do not
  take place).
* The shared region has the `comm_pad_size` bytes requested from `mmap`.  A read or write of
  `comm_pad[i]` with `i` outside them is undefined behaviour in C; the embedding ends the
  process there (`Exit.faulted`), as the segmentation fault does.
* The two busy-wait loops are bounded by a fuel argument: `none` means that the
  loop was still spinning when the fuel ran out.
* Every externally visible action is recorded, in program order, as an `Event`.
-/

namespace Portals4

/-! ## Machine constants -/

/-- Number of values of a `size_t` (LP64). -/
def SIZE_MOD : Nat := 2 ^ 64

/-- Number of values of an `unsigned int`. -/
def UINT_MOD : Nat := 2 ^ 32

/-- Largest `long` (LP64). -/
def LONG_MAX : Int := 2 ^ 63 - 1

/-- Smallest `long` (LP64). -/
def LONG_MIN : Int := -(2 ^ 63)

/-- Largest `int`. -/
def INT_MAX : Nat := 2 ^ 31 - 1

/-- The null pointer. -/
def NULL : Nat := 0

/-- The value `(void *) -1` returned by a failing `mmap`. -/
def MAP_FAILED : Nat := 2 ^ 64 - 1

/-- Conversion of a `long` to `size_t`. -/
def toSizeT (v : Int) : Nat := (v % (SIZE_MOD : Int)).toNat

/-! ## `strtol` in base 10 (C library, "C" locale) -/

/-- The C `isspace` classification: space, and the controls 9 to 13. -/
def isspace (c : Char) : Bool := c.toNat == 32 || (9 ≤ c.toNat && c.toNat ≤ 13)

/-- The C `isdigit` classification. -/
def isdigit (c : Char) : Bool := 48 ≤ c.toNat && c.toNat ≤ 57

/-- Drops leading white space; returns how many characters were dropped and the rest. -/
def skipSpace : List Char → Nat × List Char
  | [] => (0, [])
  | c :: cs => if isspace c then ((skipSpace cs).1 + 1, (skipSpace cs).2) else (0, c :: cs)

/-- Reads a run of decimal digits: the accumulated value and the number of digits read. -/
def readDigits : Nat → List Char → Nat × Nat
  | acc, [] => (acc, 0)
  | acc, c :: cs =>
    if isdigit c then
      ((readDigits (acc * 10 + (c.toNat - 48)) cs).1, (readDigits (acc * 10 + (c.toNat - 48)) cs).2 + 1)
    else (acc, 0)

/-- Reads an optional sign: whether it is a minus, how many characters it took, the rest. -/
def readSign : List Char → Bool × Nat × List Char
  | [] => (false, 0, [])
  | c :: cs =>
    if c.toNat == 45 then (true, 1, cs)
    else if c.toNat == 43 then (false, 1, cs)
    else (false, 0, c :: cs)

/-- The call `strtol(str, &strerr, 10)`: the converted value (clamped to the range of `long`) and
the offset of `strerr` from `str`.  When no digits can be read no conversion is performed, the
value is `0` and `strerr == str`, i.e. the offset is `0`. -/
def strtol (str : String) : Int × Nat :=
  let sp := skipSpace str.data
  let sg := readSign sp.2
  let dg := readDigits 0 sg.2.2
  if dg.2 = 0 then (0, 0)
  else
    let v : Int := if sg.1 then max (-(dg.1 : Int)) LONG_MIN else min (dg.1 : Int) LONG_MAX
    (v, sp.1 + sg.2.1 + dg.2)

/-! ## The outside world -/

/-- Everything decided outside the calling thread during one library call. -/
structure World where
  /-- The process environment, `getenv`. -/
  getenv : String → Option String
  /-- The page size reported by the platform (`sysconf`, `getpagesize`, or the constant 4096). -/
  pagesize : Nat
  /-- Result of `shm_open(name, O_RDWR, S_IRUSR | S_IWUSR)`: a descriptor, or a negative number. -/
  shm_open : String → Int
  /-- Result of `mmap(NULL, len, PROT_READ | PROT_WRITE, MAP_SHARED, fd, 0)`. -/
  mmap : Nat → Int → Nat
  /-- Result of `close(fd)`. -/
  close : Int → Int
  /-- Result of `munmap(addr, len)`. -/
  munmap : Nat → Nat → Int
  /-- Bytes of the shared region as written by the sibling processes: `shm t i` is the byte at
  offset `i` at the `t`-th read of the region made by the call. -/
  shm : Nat → Nat → Nat

/-! ## Process-wide state -/

/-- The fields of `nit_limits` that `PtlInit` assigns. -/
structure ptl_ni_limits_t where
  max_mes : Nat
  max_mds : Nat
  max_cts : Nat
  max_eqs : Nat
  max_pt_index : Nat
  max_iovecs : Nat
  max_me_list : Nat
  max_msg_size : Nat
  max_atomic_size : Nat

/-- The globals of `init.c` together with the two function-static markers of `PtlInit`. -/
structure State where
  comm_pad : Nat
  num_siblings : Nat
  proc_number : Nat
  per_proc_comm_buf_size : Nat
  firstpagesize : Nat
  init_ref_count : Nat
  comm_pad_size : Nat
  comm_pad_shm_name : Option String
  done_initializing : Nat
  failure : Nat
  /-- The bytes of the global `nit`. -/
  nit : Nat → Nat
  nit_limits : ptl_ni_limits_t

/-- The state of a freshly loaded process image: every global is zero. -/
def State.initial : State where
  comm_pad := NULL
  num_siblings := 0
  proc_number := 0
  per_proc_comm_buf_size := 0
  firstpagesize := 0
  init_ref_count := 0
  comm_pad_size := 0
  comm_pad_shm_name := none
  done_initializing := 0
  failure := 0
  nit := fun _ => 0
  nit_limits := ⟨0, 0, 0, 0, 0, 0, 0, 0, 0⟩

/-- Return codes of the library used by `PtlInit`. -/
inductive Retval
  | PTL_OK
  | PTL_FAIL
  deriving DecidableEq, Repr

/-- How a call ends: a value is returned, a `void` function returns, a failed `assert` aborts
the process, or an access outside the mapped region kills it. -/
inductive Exit
  | returned (r : Retval)
  | finished
  | aborted
  | faulted
  deriving DecidableEq, Repr

/-- Externally visible actions of `PtlInit` and `PtlFini`, in program order. -/
inductive Event
  | shm_open (name : String) (ret : Int)
  | mmap (len : Nat) (fd : Int) (ret : Nat)
  | close (fd : Int) (ret : Int)
  | store (off : Nat) (val : Nat)
  | load (off : Nat) (val : Nat)
  | set_failure
  | set_done
  | munmap (addr : Nat) (len : Nat) (ret : Int)
  deriving DecidableEq, Repr

/-- Modelled from the spec: `PtlInternalAtomicInc` (declared in `ptl_internal_atomic.h`, absent
from the sources) is the atomic fetch-and-add on an `unsigned int`: it returns the value the
counter had before the addition, and the counter wraps modulo `2^32`.  The pair is
(returned value, new counter). -/
def PtlInternalAtomicInc (v : Nat) (incr : Int) : Nat × Nat :=
  (v, (((v : Int) + incr) % (UINT_MOD : Int)).toNat)

/-! ## `PtlInit` -/

/-- The label `exit_fail_fast`: give the reference back and return `PTL_FAIL`. -/
def exit_fail_fast (s : State) (ev : List Event) : Exit × State × List Event :=
  (Exit.returned Retval.PTL_FAIL,
   { s with init_ref_count := (PtlInternalAtomicInc s.init_ref_count (-1)).2 }, ev)

/-- The label `exit_fail`: publish the failure, mark initialisation complete, fall through. -/
def exit_fail (s : State) (ev : List Event) : Exit × State × List Event :=
  exit_fail_fast { s with failure := 1, done_initializing := 1 }
    (ev ++ [Event.set_failure, Event.set_done])

/-- What a read of `comm_pad[i]` returns at instant `t` once the caller has stored `1` at
offset `own`: its own byte, and elsewhere what the siblings have written. -/
def view (w : World) (own : Nat) (t i : Nat) : Nat := if i = own then 1 else w.shm t i

/-- The loop `while (comm_pad[i] == 0) ;` started at instant `t`: the instant after the loop
and the reads it made. -/
def waitFlag (w : World) (own i : Nat) : Nat → Nat → Option (Nat × List Event)
  | 0, _ => none
  | fuel + 1, t =>
    if view w own t i = 0 then
      (waitFlag w own i fuel (t + 1)).map (fun r => (r.1, Event.load i 0 :: r.2))
    else some (t + 1, [Event.load i (view w own t i)])

/-- The loop `for (i = ...; i < num_siblings; ++i) while (comm_pad[i] == 0) ;` with `k`
iterations left, i.e. `i + k = num_siblings`, over a region of `size` bytes.  The result is the
instant after the loop, or `none` when the loop reached an offset outside the region, together
with the reads made. -/
def waitSiblings (w : World) (own size : Nat) (fuel : Nat) :
    Nat → Nat → Nat → Option (Option Nat × List Event)
  | 0, _, t => some (some t, [])
  | k + 1, i, t =>
    if size ≤ i then some (none, [])
    else
      match waitFlag w own i fuel t with
      | none => none
      | some (t1, ev1) =>
        (waitSiblings w own size fuel k (i + 1) t1).map (fun r => (r.1, ev1 ++ r.2))

/-- The loop `while (!done_initializing) ;` of a follower.  Within one call nothing else runs, so
the marker keeps the value it has in `s`. -/
def waitDone (s : State) : Nat → Option Unit
  | 0 => none
  | fuel + 1 => if s.done_initializing = 0 then waitDone s fuel else some ()

/-- The leader branch of `PtlInit` from "Open the communication pad" on (lines 113-146). -/
def openCommPad (ndebug : Bool) (w : World) (fuel : Nat) (s : State) (name : String) :
    Option (Exit × State × List Event) :=
  if !ndebug && s.comm_pad != NULL then some (Exit.aborted, s, [])
  else
    let shm_fd := w.shm_open name
    let ev1 := [Event.shm_open name shm_fd]
    if !ndebug && shm_fd < 0 then some (Exit.aborted, s, ev1)
    else if shm_fd < 0 then some (exit_fail s ev1)
    else
      let s1 := { s with comm_pad := w.mmap s.comm_pad_size shm_fd }
      let ev2 := ev1 ++ [Event.mmap s.comm_pad_size shm_fd s1.comm_pad]
      if s1.comm_pad = MAP_FAILED then some (exit_fail s1 ev2)
      else
        let ev3 := if ndebug then ev2 else ev2 ++ [Event.close shm_fd (w.close shm_fd)]
        if !ndebug && w.close shm_fd != 0 then some (Exit.aborted, s1, ev3)
        else if s1.comm_pad_size ≤ s1.proc_number then some (Exit.faulted, s1, ev3)
        else
          let ev4 := ev3 ++ [Event.store s1.proc_number 1]
          match waitSiblings w s1.proc_number s1.comm_pad_size fuel s1.num_siblings 0 0 with
          | none => none
          | some (none, loads) => some (Exit.faulted, s1, ev4 ++ loads)
          | some (some _, loads) =>
            some (Exit.returned Retval.PTL_OK, { s1 with done_initializing := 1 },
                  ev4 ++ loads ++ [Event.set_done])

/-- The leader branch of `PtlInit` (lines 53-146), entered after the reference count was
incremented from zero. -/
def leaderInit (ndebug : Bool) (w : World) (fuel : Nat) (s : State) :
    Option (Exit × State × List Event) :=
  let s := { s with firstpagesize := w.pagesize % SIZE_MOD }
  let s := { s with comm_pad_shm_name := w.getenv "PORTALS4_SHM_NAME" }
  match s.comm_pad_shm_name with
  | none => some (exit_fail s [])
  | some name =>
    match w.getenv "PORTALS4_NUM_PROCS" with
    | none => some (exit_fail s [])
    | some str1 =>
      let s := { s with num_siblings := toSizeT (strtol str1).1 }
      if (strtol str1).2 = 0 then some (exit_fail s [])
      else
        match w.getenv "PORTALS4_RANK" with
        | none => some (exit_fail s [])
        | some str2 =>
          let s := { s with proc_number := toSizeT (strtol str2).1 }
          if (strtol str2).2 = 0 then some (exit_fail s [])
          else
            match w.getenv "PORTALS4_COMM_SIZE" with
            | none => some (exit_fail s [])
            | some str3 =>
              let s := { s with per_proc_comm_buf_size := toSizeT (strtol str3).1 }
              if (strtol str3).2 = 0 then some (exit_fail s [])
              else
                let s := { s with comm_pad_size :=
                  (s.firstpagesize + (s.per_proc_comm_buf_size * s.num_siblings) % SIZE_MOD)
                    % SIZE_MOD }
                let s := { s with
                  nit := fun _ => 0
                  nit_limits :=
                    { max_mes := INT_MAX, max_mds := INT_MAX, max_cts := INT_MAX,
                      max_eqs := INT_MAX, max_pt_index := 63, max_iovecs := INT_MAX,
                      max_me_list := INT_MAX, max_msg_size := s.per_proc_comm_buf_size,
                      max_atomic_size := 8 } }
                openCommPad ndebug w fuel s name

/-- The function `PtlInit` of `init.c`.  `none`: a busy-wait loop outlived the fuel. -/
def PtlInit (ndebug : Bool) (w : World) (fuel : Nat) (s : State) :
    Option (Exit × State × List Event) :=
  let race := (PtlInternalAtomicInc s.init_ref_count 1).1
  let s := { s with init_ref_count := (PtlInternalAtomicInc s.init_ref_count 1).2 }
  if race = 0 then leaderInit ndebug w fuel s
  else
    match waitDone s fuel with
    | none => none
    | some _ =>
      if s.failure = 0 then some (Exit.returned Retval.PTL_OK, s, [])
      else some (exit_fail_fast s [])

/-! ## `PtlFini` -/

/-- The function `PtlFini` of `init.c`. -/
def PtlFini (ndebug : Bool) (w : World) (s : State) : Exit × State × List Event :=
  if !ndebug && s.init_ref_count = 0 then (Exit.aborted, s, [])
  else if s.init_ref_count = 0 then (Exit.finished, s, [])
  else
    let lastone := (PtlInternalAtomicInc s.init_ref_count (-1)).1
    let s := { s with init_ref_count := (PtlInternalAtomicInc s.init_ref_count (-1)).2 }
    if lastone = 1 then
      if ndebug then (Exit.finished, { s with comm_pad := NULL }, [])
      else if w.munmap s.comm_pad s.comm_pad_size != 0 then
        (Exit.aborted, s,
         [Event.munmap s.comm_pad s.comm_pad_size (w.munmap s.comm_pad s.comm_pad_size)])
      else
        (Exit.finished, { s with comm_pad := NULL },
         [Event.munmap s.comm_pad s.comm_pad_size (w.munmap s.comm_pad s.comm_pad_size)])
    else (Exit.finished, s, [])

/-! ## Sequences of calls -/

/-- One library call made by the process. -/
inductive Call
  | init (w : World) (fuel : Nat)
  | fini (w : World)

/-- Executes one call. -/
def call (ndebug : Bool) : Call → State → Option (Exit × State × List Event)
  | Call.init w fuel, s => PtlInit ndebug w fuel s
  | Call.fini w, s => some (PtlFini ndebug w s)

/-- Executes calls one after the other.  The log has one entry per executed call: how it ended
and what it did.  A call that aborts or faults ends the process, so nothing after it is executed;
`none` means that some call never returned within its fuel. -/
def run (ndebug : Bool) : List Call → State → Option (List (Exit × List Event) × State)
  | [], s => some ([], s)
  | c :: cs, s =>
    match call ndebug c s with
    | none => none
    | some (Exit.aborted, s1, ev) => some ([(Exit.aborted, ev)], s1)
    | some (Exit.faulted, s1, ev) => some ([(Exit.faulted, ev)], s1)
    | some (e, s1, ev) => (run ndebug cs s1).map (fun r => ((e, ev) :: r.1, r.2))

/-- States in which the process can be between two calls: the initial state, and every state
left by a call that returned. -/
inductive Reachable (ndebug : Bool) : State → Prop
  | initial : Reachable ndebug State.initial
  | init (s s1 : State) (w : World) (fuel : Nat) (r : Retval) (ev : List Event) :
      Reachable ndebug s → PtlInit ndebug w fuel s = some (Exit.returned r, s1, ev) →
      Reachable ndebug s1
  | fini (s s1 : State) (w : World) (ev : List Event) :
      Reachable ndebug s → PtlFini ndebug w s = (Exit.finished, s1, ev) →
      Reachable ndebug s1

/-! ## Vocabulary for the statements -/

/-- Recognises a call of `mmap`. -/
def Event.isMmap : Event → Bool
  | Event.mmap _ _ _ => true
  | _ => false

/-- Recognises a call of `munmap`. -/
def Event.isMunmap : Event → Bool
  | Event.munmap _ _ _ => true
  | _ => false

/-- Recognises a call of `shm_open`. -/
def Event.isShmOpen : Event → Bool
  | Event.shm_open _ _ => true
  | _ => false

/-- A numeric variable is usable when it is set and `strtol` converts at least one digit. -/
def numericOk (v : Option String) : Prop :=
  ∃ str, v = some str ∧ (strtol str).2 ≠ 0

/-- A valid launch environment: the four variables are set and the three numeric ones convert. -/
def validEnv (w : World) : Prop :=
  (∃ name, w.getenv "PORTALS4_SHM_NAME" = some name) ∧
  numericOk (w.getenv "PORTALS4_NUM_PROCS") ∧
  numericOk (w.getenv "PORTALS4_RANK") ∧
  numericOk (w.getenv "PORTALS4_COMM_SIZE")

/-- The segment name announced by the launcher. -/
def envName (w : World) : String := (w.getenv "PORTALS4_SHM_NAME").getD ""

/-- The value of a numeric variable as `PtlInit` stores it in a `size_t`. -/
def envNum (w : World) (var : String) : Nat := toSizeT (strtol ((w.getenv var).getD "")).1

/-- The length passed to `mmap`: `firstpagesize + per_proc_comm_buf_size * num_siblings`. -/
def regionSize (w : World) : Nat :=
  (w.pagesize % SIZE_MOD +
    (envNum w "PORTALS4_COMM_SIZE" * envNum w "PORTALS4_NUM_PROCS") % SIZE_MOD) % SIZE_MOD

/-- The descriptor that `shm_open` returns for the announced segment. -/
def envFd (w : World) : Int := w.shm_open (envName w)

/-- The address at which `mmap` places the region. -/
def envAddr (w : World) : Nat := w.mmap (regionSize w) (envFd w)

/-- Every sibling flag arrives: each flag other than the caller's own is, from some instant on,
seen non-zero. -/
def siblingsArrive (w : World) : Prop :=
  ∀ i, i < envNum w "PORTALS4_NUM_PROCS" → i ≠ envNum w "PORTALS4_RANK" →
    ∃ t0, ∀ t, t0 ≤ t → w.shm t i ≠ 0

/-- The globals as a successful leader leaves them, apart from the reference count. -/
def mapped (w : World) (s : State) : State :=
  { s with
    comm_pad := envAddr w
    num_siblings := envNum w "PORTALS4_NUM_PROCS"
    proc_number := envNum w "PORTALS4_RANK"
    per_proc_comm_buf_size := envNum w "PORTALS4_COMM_SIZE"
    firstpagesize := w.pagesize % SIZE_MOD
    comm_pad_size := regionSize w
    comm_pad_shm_name := some (envName w)
    done_initializing := 1
    nit := fun _ => 0
    nit_limits :=
      { max_mes := INT_MAX, max_mds := INT_MAX, max_cts := INT_MAX,
        max_eqs := INT_MAX, max_pt_index := 63, max_iovecs := INT_MAX,
        max_me_list := INT_MAX, max_msg_size := envNum w "PORTALS4_COMM_SIZE",
        max_atomic_size := 8 } }

/-! ## The leader -/

/-- The globals after the leader has parsed the environment, just before "Open the communication
pad". -/
def configured (w : World) (s : State) : State :=
  { s with
    num_siblings := envNum w "PORTALS4_NUM_PROCS"
    proc_number := envNum w "PORTALS4_RANK"
    per_proc_comm_buf_size := envNum w "PORTALS4_COMM_SIZE"
    firstpagesize := w.pagesize % SIZE_MOD
    comm_pad_size := regionSize w
    comm_pad_shm_name := some (envName w)
    nit := fun _ => 0
    nit_limits :=
      { max_mes := INT_MAX, max_mds := INT_MAX, max_cts := INT_MAX,
        max_eqs := INT_MAX, max_pt_index := 63, max_iovecs := INT_MAX,
        max_me_list := INT_MAX, max_msg_size := envNum w "PORTALS4_COMM_SIZE",
        max_atomic_size := 8 } }

/-! ## A cycle of `K` acquisitions and `K` releases -/

/-- The state while `c` references are outstanding after a successful leader in world `w`. -/
def held (w : World) (c : Nat) : State := { mapped w State.initial with init_ref_count := c }

/-- The trace of a successful leader around the reads `loads` of its arrival barrier. -/
def leaderTrace (w : World) (loads : List Event) : List Event :=
  [Event.shm_open (envName w) (envFd w), Event.mmap (regionSize w) (envFd w) (envAddr w),
   Event.close (envFd w) 0, Event.store (envNum w "PORTALS4_RANK") 1] ++ loads ++
    [Event.set_done]

/-! ## Every way in which the leader can end -/

/-- Recognises the system calls that set the mapping up. -/
def Event.isSetup : Event → Bool
  | Event.shm_open _ _ => true
  | Event.mmap _ _ _ => true
  | Event.close _ _ => true
  | _ => false

/-- Recognises a write to the shared region. -/
def Event.isStore : Event → Bool
  | Event.store _ _ => true
  | _ => false

/-! ## What `strtol` accepts -/

/-- A decimal integer can be read at the start of the text: white space, then an optional sign,
then at least one decimal digit. -/
def StartsWithInteger (cs : List Char) : Prop :=
  ∃ ws sg d rest, cs = ws ++ (sg ++ d :: rest) ∧ (∀ c, c ∈ ws → isspace c = true) ∧
    (sg = [] ∨ sg = [Char.ofNat 43] ∨ sg = [Char.ofNat 45]) ∧ isdigit d = true

/-- A numeric variable is set to a text at whose start no decimal integer can be read. -/
def unparseable (v : Option String) : Prop :=
  ∃ str, v = some str ∧ ¬ StartsWithInteger str.data

/-- A launch environment with a configuration error: one of the four variables is unset, or one
of the three numeric variables cannot be parsed. -/
def badEnv (w : World) : Prop :=
  w.getenv "PORTALS4_SHM_NAME" = none ∨ w.getenv "PORTALS4_NUM_PROCS" = none ∨
  w.getenv "PORTALS4_RANK" = none ∨ w.getenv "PORTALS4_COMM_SIZE" = none ∨
  unparseable (w.getenv "PORTALS4_NUM_PROCS") ∨ unparseable (w.getenv "PORTALS4_RANK") ∨
  unparseable (w.getenv "PORTALS4_COMM_SIZE")

/-! ## Concrete worlds -/

/-- A launch environment for rank 0 of 2 processes with 4096-byte buffers. -/
def demoEnv : String → Option String := fun n =>
  if n = "PORTALS4_SHM_NAME" then some "/yod"
  else if n = "PORTALS4_NUM_PROCS" then some "2"
  else if n = "PORTALS4_RANK" then some "0"
  else if n = "PORTALS4_COMM_SIZE" then some "4096"
  else none

/-- A world in which every system call succeeds and the sibling's flag is seen from the third
read on. -/
def demoWorld : World where
  getenv := demoEnv
  pagesize := 4096
  shm_open := fun _ => 3
  mmap := fun _ _ => 4096000
  close := fun _ => 0
  munmap := fun _ _ => 0
  shm := fun t _ => if 2 ≤ t then 1 else 0

/-- A world without any launch environment. -/
def bareWorld : World := { demoWorld with getenv := fun _ => none }

/-- The world `demoWorld` except that `mmap` fails. -/
def noMapWorld : World := { demoWorld with mmap := fun _ _ => MAP_FAILED }

/-- The environment of a process whose rank lies outside the region: rank 100000, alone, with a
16-byte buffer, so that the region has 4096 + 16 bytes. -/
def farEnv : String → Option String := fun n =>
  if n = "PORTALS4_SHM_NAME" then some "/yod"
  else if n = "PORTALS4_NUM_PROCS" then some "1"
  else if n = "PORTALS4_RANK" then some "100000"
  else if n = "PORTALS4_COMM_SIZE" then some "16"
  else none

/-- The world `demoWorld` with the environment `farEnv`. -/
def farWorld : World := { demoWorld with getenv := farEnv }

/-- The actions of a successful leader in `demoWorld` with rank 0 of 2: the sibling's flag is read
as zero once and then as set. -/
def demoTrace : List Event :=
  [Event.shm_open "/yod" 3, Event.mmap 12288 3 4096000, Event.close 3 0, Event.store 0 1,
   Event.load 0 1, Event.load 1 0, Event.load 1 1, Event.set_done]

/-- The actions of the same leader when assertions are compiled out: `close`, which the source
calls inside `assert`, is missing. -/
def demoTraceNdebug : List Event :=
  [Event.shm_open "/yod" 3, Event.mmap 12288 3 4096000, Event.store 0 1,
   Event.load 0 1, Event.load 1 0, Event.load 1 1, Event.set_done]

/-- The log of a run: how each call ended and what it did. -/
def logOf (r : Option (List (Exit × List Event) × State)) : Option (List (Exit × List Event)) :=
  r.map (fun x => x.1)

/-- The exits of the calls of a run, in order. -/
def exits (r : Option (List (Exit × List Event) × State)) : Option (List Exit) :=
  r.map (fun x => x.1.map Prod.fst)

/-- The state in which a run ends. -/
def finalState (r : Option (List (Exit × List Event) × State)) : Option State :=
  r.map (fun x => x.2)

/-! ## The rank-discovery bootstrap of `test_bootstrap.c`

The size of a `ptl_process_id_t` is declared in `portals4.h`, which is not among the sources; it
is the parameter `sz` throughout. -/

/-- Conversion of an `int` to `uint64_t`. -/
def toU64 (v : Int) : Nat := (v % (2 ^ 64 : Int)).toNat

/-- The C library's `atoi`: the value converted by `strtol`, narrowed to `int`. -/
def atoi (str : String) : Int := ((strtol str).1 + 2 ^ 31) % 2 ^ 32 - 2 ^ 31

/-- The assignment `rank = atoi(getenv("PORTALS4_RANK"))` (line 44), from the value of `atoi`. -/
def rankOf (r : Int) : Nat := toU64 r

/-- The assignment `maxrank = atoi(getenv("PORTALS4_NUM_PROCS")) - 1` (line 46), from the value
of `atoi`. -/
def maxrankOf (nprocs : Int) : Nat := toU64 (nprocs - 1)

/-- The number of entries of `mapping = calloc(maxrank + 1, sizeof(ptl_process_id_t))`. -/
def mappingEntries (maxrank : Nat) : Nat := (maxrank + 1) % 2 ^ 64

/-- The expression `(maxrank + 1) * sizeof(ptl_process_id_t)`: the length of the landing buffer
and of the table that is broadcast. -/
def tableLength (sz maxrank : Nat) : Nat := ((maxrank + 1) % 2 ^ 64 * sz) % 2 ^ 64

/-- The destination of a put. -/
inductive Target
  | COLLECTOR
  | entry (r : Nat)
  deriving DecidableEq, Repr

/-- The two counting events of a participant: the one of its list entry and the one of its
memory descriptor. -/
inductive Counter
  | le_ct
  | md_ct
  deriving DecidableEq, Repr

/-- The library calls made by `main`, with the arguments that `main` computes.  `PtlPut` carries
`local_offset`, `length`, the target, `pt_index`, `match_bits`, `remote_offset` and `hdr_data`;
`PtlNIInit` carries whether the interface is logical, the pid and `map_size`. -/
inductive ApiCall
  | PtlInit
  | PtlGetId
  | PtlCTAlloc (ct : Counter)
  | PtlLEAppend (pt_index : Nat) (length : Nat) (use_once : Bool) (ct : Counter)
  | PtlMDBind (length : Nat) (ct : Counter)
  | PtlPut (local_offset : Nat) (length : Nat) (target : Target) (pt_index : Nat)
      (match_bits : Nat) (remote_offset : Nat) (hdr_data : Nat)
  | noFailures (ct : Counter) (threshold : Nat)
  | PtlCTFree (ct : Counter)
  | PtlLEUnlink
  | PtlMDRelease
  | PtlNIInit (logical : Bool) (pid : Nat) (map_size : Nat)
  | PtlNIFini (logical : Bool)
  | PtlFini
  deriving DecidableEq, Repr

/-- The put by which a contributor sends its own id to the collector (lines 117-120). -/
def contributorPut (sz rank : Nat) : ApiCall :=
  ApiCall.PtlPut 0 sz Target.COLLECTOR 0 0 ((rank * sz) % 2 ^ 64) 0

/-- The threshold `maxrank + 1` of the two waits of the collector (lines 68 and 84). -/
def collectorThreshold (maxrank : Nat) : Nat := (maxrank + 1) % 2 ^ 64

/-- The collector branch of `main` (lines 55-88).  The loop `for (r = 0; r <= maxrank; ++r)`
issues one put per entry of the table. -/
def collector (sz maxrank : Nat) : List ApiCall :=
  [ApiCall.PtlCTAlloc Counter.le_ct,
   ApiCall.PtlLEAppend 0 (tableLength sz maxrank) false Counter.le_ct,
   ApiCall.noFailures Counter.le_ct (collectorThreshold maxrank),
   ApiCall.PtlCTFree Counter.le_ct,
   ApiCall.PtlLEUnlink,
   ApiCall.PtlCTAlloc Counter.md_ct,
   ApiCall.PtlMDBind (tableLength sz maxrank) Counter.md_ct] ++
  (List.range (maxrank + 1)).map
    (fun r => ApiCall.PtlPut 0 (tableLength sz maxrank) (Target.entry r) 0 0 0 0) ++
  [ApiCall.noFailures Counter.md_ct (collectorThreshold maxrank),
   ApiCall.PtlCTFree Counter.md_ct,
   ApiCall.PtlMDRelease,
   ApiCall.PtlNIFini false]

/-- The contributor branch of `main` (lines 90-144). -/
def contributor (sz rank maxrank pid : Nat) : List ApiCall :=
  [ApiCall.PtlCTAlloc Counter.md_ct,
   ApiCall.PtlCTAlloc Counter.le_ct,
   ApiCall.PtlLEAppend 0 (tableLength sz maxrank) true Counter.le_ct,
   ApiCall.PtlMDBind sz Counter.md_ct,
   contributorPut sz rank,
   ApiCall.noFailures Counter.md_ct 1,
   ApiCall.PtlCTFree Counter.md_ct,
   ApiCall.PtlMDRelease,
   ApiCall.noFailures Counter.le_ct 1,
   ApiCall.PtlCTFree Counter.le_ct,
   ApiCall.PtlNIInit true pid maxrank,
   ApiCall.PtlNIFini false]

/-- The function `main` of `test_bootstrap.c` when every asserted call succeeds: `none` when one
of the asserted environment variables is unset.  `myself_pid` is the pid that `PtlGetId`
reports, `PTL_PID_ANY` the constant of `init.c`. -/
def main (sz : Nat) (getenv : String → Option String) (myself_pid : Nat) :
    Option (List ApiCall) :=
  match getenv "PORTALS4_COLLECTOR_NID", getenv "PORTALS4_COLLECTOR_PID",
      getenv "PORTALS4_RANK", getenv "PORTALS4_NUM_PROCS" with
  | some _, some cpid, some r, some n =>
    let rank := rankOf (atoi r)
    let maxrank := maxrankOf (atoi n)
    some ([ApiCall.PtlInit, ApiCall.PtlNIInit false (UINT_MOD - 1) 0, ApiCall.PtlGetId] ++
      (if myself_pid = (atoi cpid % 2 ^ 32).toNat then collector sz maxrank
       else contributor sz rank maxrank myself_pid) ++
      [ApiCall.PtlNIFini true, ApiCall.PtlFini])
  | _, _, _, _ => none

/-- A receive buffer: its length and its bytes. -/
structure Buffer where
  length : Nat
  byte : Nat → Nat

/-- Modelled from the spec: the effect of `PtlPut` on the receive buffer of the target (the
network layer is not among the sources).  A put is "a single fixed-size write targeted at
offset" `remote_offset` "in the collector's receive buffer": `length` bytes of the sender's
buffer `payload`, from `local_offset` on, land at `remote_offset`; a write that would not fit in
the receive buffer is not performed.  Other calls do not touch the buffer. -/
def deliver (payload : Nat → Nat) (buf : Buffer) : ApiCall → Buffer
  | ApiCall.PtlPut local_offset length _ _ _ remote_offset _ =>
    if remote_offset + length ≤ buf.length then
      { buf with byte := fun i =>
          if remote_offset ≤ i ∧ i < remote_offset + length then
            payload (local_offset + (i - remote_offset))
          else buf.byte i }
    else buf
  | _ => buf

/-- The landing buffer after the contributors of the ranks listed in `order` have had their puts
delivered, in that order; `addr r` are the bytes of the id of rank `r`. -/
def gather (sz : Nat) (addr : Nat → Nat → Nat) : List Nat → Buffer → Buffer
  | [], buf => buf
  | r :: rs, buf => gather sz addr rs (deliver (addr r) buf (contributorPut sz r))

/-- Recognises a call of `PtlPut`. -/
def ApiCall.isPut : ApiCall → Bool
  | ApiCall.PtlPut _ _ _ _ _ _ _ => true
  | _ => false

/-- Recognises a call of `PtlNIInit` for a logical interface. -/
def ApiCall.isLogicalInit : ApiCall → Bool
  | ApiCall.PtlNIInit true _ _ => true
  | _ => false

/-- The environment of the contributor of rank 2 in a run of four processes whose collector has
pid 1. -/
def bootEnv : String → Option String := fun n =>
  if n = "PORTALS4_COLLECTOR_NID" then some "0"
  else if n = "PORTALS4_COLLECTOR_PID" then some "1"
  else if n = "PORTALS4_RANK" then some "2"
  else if n = "PORTALS4_NUM_PROCS" then some "4"
  else none

/-! # Theorems -/

/-! ## Arithmetic of the reference count -/

theorem atomicInc_fst (v : Nat) (d : Int) : (PtlInternalAtomicInc v d).1 = v := rfl

theorem atomicInc_succ (v : Nat) (h : v + 1 < UINT_MOD) :
    (PtlInternalAtomicInc v 1).2 = v + 1 := by
  unfold PtlInternalAtomicInc UINT_MOD at *
  simp only
  omega

theorem atomicInc_pred (v : Nat) (h0 : 0 < v) (h : v < UINT_MOD) :
    (PtlInternalAtomicInc v (-1)).2 = v - 1 := by
  unfold PtlInternalAtomicInc UINT_MOD at *
  simp only
  omega

/-! ## The busy-wait loops -/

theorem waitFlag_terminates (w : World) (own i T : Nat)
    (h : ∀ t, T ≤ t → view w own t i ≠ 0) :
    ∀ fuel t, T < t + fuel → 0 < fuel → ∃ r, waitFlag w own i fuel t = some r := by
  intro fuel
  induction fuel with
  | zero => intro t _ h0; omega
  | succ n ih =>
    intro t hT _
    by_cases hv : view w own t i = 0
    · have hlt : t < T := by
        by_contra hge
        exact h t (by omega) hv
      obtain ⟨r, hr⟩ := ih (t + 1) (by omega) (by omega)
      exact ⟨(r.1, Event.load i 0 :: r.2), by simp [waitFlag, hv, hr]⟩
    · exact ⟨(t + 1, [Event.load i (view w own t i)]), by simp [waitFlag, hv]⟩

theorem waitFlag_loads (w : World) (own i : Nat) :
    ∀ fuel t r, waitFlag w own i fuel t = some r →
      (∀ e, e ∈ r.2 → ∃ v, e = Event.load i v) ∧ (∃ v, v ≠ 0 ∧ Event.load i v ∈ r.2) := by
  intro fuel
  induction fuel with
  | zero => intro t r h; simp [waitFlag] at h
  | succ n ih =>
    intro t r h
    by_cases hv : view w own t i = 0
    · simp only [waitFlag, hv, if_true, Option.map_eq_some'] at h
      obtain ⟨r1, hr1, rfl⟩ := h
      obtain ⟨hall, v, hv0, hmem⟩ := ih (t + 1) r1 hr1
      refine ⟨?_, v, hv0, List.mem_cons_of_mem _ hmem⟩
      intro e he
      rcases List.mem_cons.mp he with rfl | he
      · exact ⟨0, rfl⟩
      · exact hall e he
    · simp only [waitFlag, hv, if_false, Option.some.injEq] at h
      subst h
      refine ⟨?_, view w own t i, hv, by simp⟩
      intro e he
      exact ⟨view w own t i, by simpa using he⟩

theorem waitSiblings_terminates (w : World) (own size fuel T : Nat) (hfuel : T < fuel) :
    ∀ k i t, i + k ≤ size →
      (∀ j, i ≤ j → j < i + k → ∀ t1, T ≤ t1 → view w own t1 j ≠ 0) →
      ∃ t1 ev, waitSiblings w own size fuel k i t = some (some t1, ev) := by
  intro k
  induction k with
  | zero => intro i t _ _; exact ⟨t, [], rfl⟩
  | succ n ih =>
    intro i t hsize h
    have hin : ¬ size ≤ i := by omega
    obtain ⟨r1, hr1⟩ := waitFlag_terminates w own i T (h i (le_refl i) (by omega)) fuel t
      (by omega) (by omega)
    obtain ⟨t2, ev2, hr2⟩ := ih (i + 1) r1.1 (by omega)
      (fun j hj1 hj2 => h j (by omega) (by omega))
    exact ⟨t2, r1.2 ++ ev2, by simp [waitSiblings, hin, hr1, hr2]⟩

theorem waitSiblings_loads (w : World) (own size fuel : Nat) :
    ∀ k i t r, waitSiblings w own size fuel k i t = some r →
      (∀ e, e ∈ r.2 → ∃ j v, e = Event.load j v) ∧
      (∀ t1, r.1 = some t1 →
        ∀ j, i ≤ j → j < i + k → ∃ v, v ≠ 0 ∧ Event.load j v ∈ r.2) := by
  intro k
  induction k with
  | zero =>
    intro i t r h
    simp only [waitSiblings, Option.some.injEq] at h
    subst h
    exact ⟨by simp, fun _ _ j h1 h2 => by omega⟩
  | succ n ih =>
    intro i t r h
    by_cases hsz : size ≤ i
    · simp only [waitSiblings, hsz, if_true, Option.some.injEq] at h
      subst h
      exact ⟨by simp, fun t1 ht1 => by simp at ht1⟩
    cases hf : waitFlag w own i fuel t with
    | none => simp [waitSiblings, hsz, hf] at h
    | some r1 =>
      obtain ⟨t1, ev1⟩ := r1
      simp only [waitSiblings, hsz, if_false, hf, Option.map_eq_some'] at h
      obtain ⟨r2, hr2, rfl⟩ := h
      obtain ⟨hall1, v1, hv1, hmem1⟩ := waitFlag_loads w own i fuel t _ hf
      obtain ⟨hall2, hex2⟩ := ih (i + 1) t1 r2 hr2
      refine ⟨?_, ?_⟩
      · intro e he
        rcases List.mem_append.mp he with he | he
        · obtain ⟨v, hv⟩ := hall1 e he
          exact ⟨i, v, hv⟩
        · exact hall2 e he
      · intro t2 ht2 j hj1 hj2
        by_cases hji : j = i
        · subst hji
          exact ⟨v1, hv1, List.mem_append.mpr (Or.inl hmem1)⟩
        · obtain ⟨v, hv, hmem⟩ := hex2 t2 ht2 j (by omega) (by omega)
          exact ⟨v, hv, List.mem_append.mpr (Or.inr hmem)⟩

/-- Finitely many flags that each arrive have all arrived by a common instant. -/
theorem arrive_uniform (f : Nat → Nat → Nat) :
    ∀ n, (∀ i, i < n → ∃ t0, ∀ t, t0 ≤ t → f t i ≠ 0) →
      ∃ T, ∀ i, i < n → ∀ t, T ≤ t → f t i ≠ 0 := by
  intro n
  induction n with
  | zero => intro _; exact ⟨0, fun i hi => by omega⟩
  | succ n ih =>
    intro h
    obtain ⟨T, hT⟩ := ih (fun i hi => h i (by omega))
    obtain ⟨t0, ht0⟩ := h n (by omega)
    refine ⟨max T t0, ?_⟩
    intro i hi t ht
    by_cases hin : i = n
    · subst hin
      exact ht0 t (le_trans (le_max_right _ _) ht)
    · exact hT i (by omega) t (le_trans (le_max_left _ _) ht)

theorem view_arrive (w : World) (own n : Nat)
    (h : ∀ i, i < n → i ≠ own → ∃ t0, ∀ t, t0 ≤ t → w.shm t i ≠ 0) :
    ∃ T, ∀ i, i < n → ∀ t, T ≤ t → view w own t i ≠ 0 := by
  apply arrive_uniform (view w own) n
  intro i hi
  by_cases hio : i = own
  · exact ⟨0, fun t _ => by simp [view, hio]⟩
  · obtain ⟨t0, ht0⟩ := h i hi hio
    exact ⟨t0, fun t ht => by simpa [view, hio] using ht0 t ht⟩

/-! ## The leader in a valid environment -/

theorem leaderInit_valid (ndebug : Bool) (w : World) (fuel : Nat) (s : State)
    (henv : validEnv w) :
    leaderInit ndebug w fuel s = openCommPad ndebug w fuel (configured w s) (envName w) := by
  obtain ⟨⟨name, hn⟩, ⟨s1, h1, p1⟩, ⟨s2, h2, p2⟩, ⟨s3, h3, p3⟩⟩ := henv
  simp [leaderInit, configured, envNum, envName, regionSize, hn, h1, h2, h3, p1, p2, p3]

theorem openCommPad_ok (w : World) (fuel T : Nat) (s : State) (name : String)
    (hnull : s.comm_pad = NULL) (hopen : 0 ≤ w.shm_open name)
    (hmap : w.mmap s.comm_pad_size (w.shm_open name) ≠ MAP_FAILED)
    (hclose : w.close (w.shm_open name) = 0) (hrank : s.proc_number < s.comm_pad_size)
    (hsib : s.num_siblings ≤ s.comm_pad_size) (hfuel : T < fuel)
    (harr : ∀ i, i < s.num_siblings → ∀ t, T ≤ t → view w s.proc_number t i ≠ 0) :
    ∃ loads, openCommPad false w fuel s name =
      some (Exit.returned Retval.PTL_OK,
        { s with comm_pad := w.mmap s.comm_pad_size (w.shm_open name), done_initializing := 1 },
        [Event.shm_open name (w.shm_open name),
         Event.mmap s.comm_pad_size (w.shm_open name) (w.mmap s.comm_pad_size (w.shm_open name)),
         Event.close (w.shm_open name) 0, Event.store s.proc_number 1] ++ loads ++
          [Event.set_done]) ∧
      (∀ e, e ∈ loads → ∃ j v, e = Event.load j v) := by
  obtain ⟨t1, loads, hr⟩ := waitSiblings_terminates w s.proc_number s.comm_pad_size fuel T hfuel
    s.num_siblings 0 0 (by omega) (fun j _ hj t ht => harr j (by omega) t ht)
  refine ⟨loads, ?_, (waitSiblings_loads w s.proc_number s.comm_pad_size fuel _ 0 0 _ hr).1⟩
  have hneg : ¬ w.shm_open name < 0 := by omega
  have hin : ¬ s.comm_pad_size ≤ s.proc_number := by omega
  simp [openCommPad, hnull, hneg, hmap, hclose, hin, hr]

/-! ## Followers -/

theorem waitDone_some (s : State) (h : s.done_initializing ≠ 0) :
    ∀ fuel, 0 < fuel → waitDone s fuel = some () := by
  intro fuel hf
  cases fuel with
  | zero => omega
  | succ n => simp [waitDone, h]

theorem waitDone_none (s : State) (h : s.done_initializing = 0) :
    ∀ fuel, waitDone s fuel = none := by
  intro fuel
  induction fuel with
  | zero => rfl
  | succ n ih => simpa [waitDone, h] using ih

/-- A follower whose completion marker is still clear spins for as long as it is given fuel. -/
theorem PtlInit_follower_spins (ndebug : Bool) (w : World) (fuel : Nat) (s : State)
    (hrace : s.init_ref_count ≠ 0) (hdone : s.done_initializing = 0) :
    PtlInit ndebug w fuel s = none := by
  have h := waitDone_none { s with init_ref_count := (PtlInternalAtomicInc s.init_ref_count 1).2 }
    hdone fuel
  simp [PtlInit, atomicInc_fst, hrace, h]

theorem PtlInit_follower (ndebug : Bool) (w : World) (fuel : Nat) (s : State)
    (hrace : s.init_ref_count ≠ 0) (hdone : s.done_initializing ≠ 0) (hfuel : 0 < fuel) :
    PtlInit ndebug w fuel s =
      if s.failure = 0 then
        some (Exit.returned Retval.PTL_OK,
          { s with init_ref_count := (PtlInternalAtomicInc s.init_ref_count 1).2 }, [])
      else
        some (exit_fail_fast
          { s with init_ref_count := (PtlInternalAtomicInc s.init_ref_count 1).2 } []) := by
  have h := waitDone_some { s with init_ref_count := (PtlInternalAtomicInc s.init_ref_count 1).2 }
    hdone fuel hfuel
  simp [PtlInit, atomicInc_fst, hrace, h]

theorem PtlInit_leader (ndebug : Bool) (w : World) (fuel : Nat) (s : State)
    (hrace : s.init_ref_count = 0) :
    PtlInit ndebug w fuel s = leaderInit ndebug w fuel { s with init_ref_count := 1 } := by
  have h1 : (PtlInternalAtomicInc 0 1).2 = 1 := by decide
  simp [PtlInit, atomicInc_fst, hrace, h1]

/-! ## A cycle of `K` acquisitions and `K` releases: the steps -/

theorem PtlInit_follower_held (ndebug : Bool) (w : World) (fuel c : Nat) (hfuel : 0 < fuel)
    (hc : 1 ≤ c) (hc32 : c + 1 < UINT_MOD) :
    PtlInit ndebug w fuel (held w c) = some (Exit.returned Retval.PTL_OK, held w (c + 1), []) := by
  have h := PtlInit_follower ndebug w fuel (held w c) (by simp [held]; omega)
    (by simp [held, mapped]) hfuel
  rw [h]
  simp [held, mapped, State.initial, atomicInc_succ c hc32]

theorem PtlFini_held (ndebug : Bool) (w : World) (c : Nat) (hc : 2 ≤ c) (hc32 : c < UINT_MOD) :
    PtlFini ndebug w (held w c) = (Exit.finished, held w (c - 1), []) := by
  have h0 : c ≠ 0 := by omega
  have h1 : c ≠ 1 := by omega
  simp [PtlFini, held, mapped, atomicInc_fst, atomicInc_pred c (by omega) hc32, h0, h1]

theorem PtlFini_last (w : World) (hunmap : w.munmap (envAddr w) (regionSize w) = 0) :
    PtlFini false w (held w 1) =
      (Exit.finished, { held w 0 with comm_pad := NULL },
       [Event.munmap (envAddr w) (regionSize w) 0]) := by
  have h1 : (PtlInternalAtomicInc 1 (-1)).2 = 0 := by decide
  simp [PtlFini, held, mapped, atomicInc_fst, h1, hunmap]

theorem run_cons (ndebug : Bool) (c : Call) (cs : List Call) (s s1 : State) (e : Exit)
    (ev : List Event) (h : call ndebug c s = some (e, s1, ev)) (he : e ≠ Exit.aborted)
    (hf : e ≠ Exit.faulted) :
    run ndebug (c :: cs) s = (run ndebug cs s1).map (fun r => ((e, ev) :: r.1, r.2)) := by
  cases e with
  | returned r => simp [run, h]
  | finished => simp [run, h]
  | aborted => exact absurd rfl he
  | faulted => exact absurd rfl hf

theorem run_followers (ndebug : Bool) (w : World) (fuel : Nat) (hfuel : 0 < fuel)
    (rest : List Call) :
    ∀ n c, 1 ≤ c → c + n < UINT_MOD →
      run ndebug (List.replicate n (Call.init w fuel) ++ rest) (held w c) =
        (run ndebug rest (held w (c + n))).map
          (fun r => (List.replicate n (Exit.returned Retval.PTL_OK, []) ++ r.1, r.2)) := by
  intro n
  induction n with
  | zero => intro c _ _; simp
  | succ n ih =>
    intro c hc hlt
    have hstep : call ndebug (Call.init w fuel) (held w c) =
        some (Exit.returned Retval.PTL_OK, held w (c + 1), []) :=
      PtlInit_follower_held ndebug w fuel c hfuel hc (by omega)
    have hrec := ih (c + 1) (by omega) (by omega)
    have harith : c + 1 + n = c + (n + 1) := by omega
    rw [List.replicate_succ, List.cons_append, run_cons ndebug _ _ _ _ _ _ hstep (by simp) (by simp), hrec,
      Option.map_map, harith]
    rfl

theorem run_finis (ndebug : Bool) (w : World) (rest : List Call) :
    ∀ n c, n < c → c < UINT_MOD →
      run ndebug (List.replicate n (Call.fini w) ++ rest) (held w c) =
        (run ndebug rest (held w (c - n))).map
          (fun r => (List.replicate n (Exit.finished, []) ++ r.1, r.2)) := by
  intro n
  induction n with
  | zero => intro c _ _; simp
  | succ n ih =>
    intro c hc hlt
    have hstep : call ndebug (Call.fini w) (held w c) =
        some (Exit.finished, held w (c - 1), []) := by
      simp [call, PtlFini_held ndebug w c (by omega) hlt]
    have hrec := ih (c - 1) (by omega) (by omega)
    have harith : c - 1 - n = c - (n + 1) := by omega
    rw [List.replicate_succ, List.cons_append, run_cons ndebug _ _ _ _ _ _ hstep (by simp) (by simp), hrec,
      Option.map_map, harith]
    rfl

theorem PtlInit_leader_ok (w : World) (fuel T : Nat) (henv : validEnv w)
    (hopen : 0 ≤ envFd w) (hmap : envAddr w ≠ MAP_FAILED) (hclose : w.close (envFd w) = 0)
    (hrank : envNum w "PORTALS4_RANK" < regionSize w)
    (hsib : envNum w "PORTALS4_NUM_PROCS" ≤ regionSize w) (hfuel : T < fuel)
    (harr : ∀ i, i < envNum w "PORTALS4_NUM_PROCS" → ∀ t, T ≤ t →
      view w (envNum w "PORTALS4_RANK") t i ≠ 0) :
    ∃ loads, PtlInit false w fuel State.initial =
        some (Exit.returned Retval.PTL_OK, held w 1, leaderTrace w loads) ∧
      (∀ e, e ∈ loads → ∃ j v, e = Event.load j v) := by
  obtain ⟨loads, h, hl⟩ := openCommPad_ok w fuel T
    (configured w { State.initial with init_ref_count := 1 }) (envName w) rfl hopen hmap hclose
    hrank hsib hfuel harr
  refine ⟨loads, ?_, hl⟩
  rw [PtlInit_leader false w fuel State.initial rfl, leaderInit_valid false w fuel _ henv, h]
  rfl

theorem filter_isMmap_loads (loads : List Event) (h : ∀ e, e ∈ loads → ∃ j v, e = Event.load j v) :
    loads.filter Event.isMmap = [] ∧ loads.filter Event.isMunmap = [] := by
  constructor <;>
  · apply List.filter_eq_nil_iff.mpr
    intro e he
    obtain ⟨j, v, rfl⟩ := h e he
    simp [Event.isMmap, Event.isMunmap]

/-! ## Every way in which a call of `PtlInit` can end -/

theorem openCommPad_cases (ndebug : Bool) (w : World) (fuel : Nat) (s : State) (name : String)
    (e : Exit) (s1 : State) (ev : List Event)
    (h : openCommPad ndebug w fuel s name = some (e, s1, ev)) :
    ((e = Exit.aborted ∨ e = Exit.faulted) ∧ ∀ off val, Event.store off val ∈ ev → val = 1) ∨
    (e = Exit.returned Retval.PTL_FAIL ∧ s1.done_initializing = 1 ∧ s1.failure = 1 ∧
      ev.filter Event.isStore = []) ∨
    (e = Exit.returned Retval.PTL_OK ∧
      s1 = { s with comm_pad := w.mmap s.comm_pad_size (w.shm_open name),
                    done_initializing := 1 } ∧
      ∃ pre t loads,
        waitSiblings w s.proc_number s.comm_pad_size fuel s.num_siblings 0 0 =
          some (some t, loads) ∧
        ev = pre ++ Event.store s.proc_number 1 :: (loads ++ [Event.set_done]) ∧
        ∀ x, x ∈ pre → x.isSetup = true) := by
  unfold openCommPad at h
  simp only at h
  by_cases h1 : (!ndebug && s.comm_pad != NULL) = true
  · rw [if_pos h1] at h
    simp only [Option.some.injEq, Prod.mk.injEq] at h
    obtain ⟨rfl, rfl, rfl⟩ := h
    exact Or.inl ⟨Or.inl rfl, by simp⟩
  rw [if_neg h1] at h
  by_cases h2 : (!ndebug && decide (w.shm_open name < 0)) = true
  · rw [if_pos h2] at h
    simp only [Option.some.injEq, Prod.mk.injEq] at h
    obtain ⟨rfl, rfl, rfl⟩ := h
    exact Or.inl ⟨Or.inl rfl, by simp⟩
  rw [if_neg h2] at h
  by_cases h3 : w.shm_open name < 0
  · rw [if_pos h3] at h
    simp only [exit_fail, exit_fail_fast, Option.some.injEq, Prod.mk.injEq] at h
    obtain ⟨rfl, rfl, rfl⟩ := h
    exact Or.inr (Or.inl ⟨rfl, rfl, rfl, rfl⟩)
  rw [if_neg h3] at h
  by_cases h4 : w.mmap s.comm_pad_size (w.shm_open name) = MAP_FAILED
  · rw [if_pos h4] at h
    simp only [exit_fail, exit_fail_fast, Option.some.injEq, Prod.mk.injEq] at h
    obtain ⟨rfl, rfl, rfl⟩ := h
    exact Or.inr (Or.inl ⟨rfl, rfl, rfl, rfl⟩)
  rw [if_neg h4] at h
  by_cases h5 : (!ndebug && w.close (w.shm_open name) != 0) = true
  · rw [if_pos h5] at h
    simp only [Option.some.injEq, Prod.mk.injEq] at h
    obtain ⟨rfl, rfl, rfl⟩ := h
    refine Or.inl ⟨Or.inl rfl, ?_⟩
    cases ndebug <;> simp
  rw [if_neg h5] at h
  by_cases h6 : s.comm_pad_size ≤ s.proc_number
  · rw [if_pos h6] at h
    simp only [Option.some.injEq, Prod.mk.injEq] at h
    obtain ⟨rfl, rfl, rfl⟩ := h
    refine Or.inl ⟨Or.inr rfl, ?_⟩
    cases ndebug <;> simp
  rw [if_neg h6] at h
  cases hw : waitSiblings w s.proc_number s.comm_pad_size fuel s.num_siblings 0 0 with
  | none => simp [hw] at h
  | some r =>
    obtain ⟨ot, loads⟩ := r
    have hloads := (waitSiblings_loads w s.proc_number s.comm_pad_size fuel _ 0 0 _ hw).1
    cases ot with
    | none =>
      simp only [hw, Option.some.injEq, Prod.mk.injEq] at h
      obtain ⟨rfl, rfl, rfl⟩ := h
      refine Or.inl ⟨Or.inr rfl, ?_⟩
      intro off val hmem
      rcases List.mem_append.mp hmem with hm | hm
      · rcases List.mem_append.mp hm with hm | hm
        · cases ndebug <;> simp at hm
        · simp only [List.mem_singleton, Event.store.injEq] at hm
          exact hm.2
      · obtain ⟨j, v, hjv⟩ := hloads _ hm
        exact Event.noConfusion hjv
    | some t =>
      simp only [hw, Option.some.injEq, Prod.mk.injEq] at h
      obtain ⟨rfl, rfl, rfl⟩ := h
      refine Or.inr (Or.inr ⟨rfl, rfl, ?_⟩)
      cases ndebug
      · exact ⟨[Event.shm_open name (w.shm_open name),
          Event.mmap s.comm_pad_size (w.shm_open name) (w.mmap s.comm_pad_size (w.shm_open name)),
          Event.close (w.shm_open name) (w.close (w.shm_open name))], t, loads, rfl, by simp,
          by simp [Event.isSetup]⟩
      · exact ⟨[Event.shm_open name (w.shm_open name),
          Event.mmap s.comm_pad_size (w.shm_open name) (w.mmap s.comm_pad_size (w.shm_open name))],
          t, loads, rfl, by simp, by simp [Event.isSetup]⟩

/-- With an invalid environment the leader goes to `exit_fail` before "Open the communication
pad", whatever the fuel. -/
theorem leaderInit_invalid (ndebug : Bool) (w : World) (fuel : Nat) (s : State)
    (hbad : ¬ validEnv w) :
    ∃ s0, leaderInit ndebug w fuel s = some (exit_fail s0 []) ∧ s0.comm_pad = s.comm_pad ∧
      s0.init_ref_count = s.init_ref_count := by
  unfold leaderInit
  simp only
  cases hn : w.getenv "PORTALS4_SHM_NAME" with
  | none => exact ⟨_, rfl, rfl, rfl⟩
  | some name =>
    cases h1 : w.getenv "PORTALS4_NUM_PROCS" with
    | none => exact ⟨_, rfl, rfl, rfl⟩
    | some str1 =>
      simp only
      by_cases p1 : (strtol str1).2 = 0
      · rw [if_pos p1]
        exact ⟨_, rfl, rfl, rfl⟩
      rw [if_neg p1]
      cases h2 : w.getenv "PORTALS4_RANK" with
      | none => exact ⟨_, rfl, rfl, rfl⟩
      | some str2 =>
        simp only
        by_cases p2 : (strtol str2).2 = 0
        · rw [if_pos p2]
          exact ⟨_, rfl, rfl, rfl⟩
        rw [if_neg p2]
        cases h3 : w.getenv "PORTALS4_COMM_SIZE" with
        | none => exact ⟨_, rfl, rfl, rfl⟩
        | some str3 =>
          simp only
          by_cases p3 : (strtol str3).2 = 0
          · rw [if_pos p3]
            exact ⟨_, rfl, rfl, rfl⟩
          exact absurd ⟨⟨name, hn⟩, ⟨str1, h1, p1⟩, ⟨str2, h2, p2⟩, ⟨str3, h3, p3⟩⟩ hbad

/-- The leader either fails while reading the environment, or reaches "Open the communication
pad" with the reference count, `comm_pad` and the two markers as they were. -/
theorem leaderInit_cases (ndebug : Bool) (w : World) (fuel : Nat) (s : State)
    (r : Exit × State × List Event) (h : leaderInit ndebug w fuel s = some r) :
    (¬ validEnv w ∧ ∃ s0, r = exit_fail s0 [] ∧ s0.comm_pad = s.comm_pad ∧
      s0.init_ref_count = s.init_ref_count) ∨
    (validEnv w ∧ openCommPad ndebug w fuel (configured w s) (envName w) = some r) := by
  by_cases hv : validEnv w
  · rw [leaderInit_valid ndebug w fuel s hv] at h
    exact Or.inr ⟨hv, h⟩
  · obtain ⟨s0, h0, hc, hr⟩ := leaderInit_invalid ndebug w fuel s hv
    rw [h0, Option.some.injEq] at h
    exact Or.inl ⟨hv, s0, h.symm, hc, hr⟩

/-- Every way in which a call of `PtlInit` that observes a count of zero can end. -/
theorem PtlInit_leader_cases (ndebug : Bool) (w : World) (fuel : Nat) (s : State)
    (e : Exit) (s1 : State) (ev : List Event) (hrace : s.init_ref_count = 0)
    (h : PtlInit ndebug w fuel s = some (e, s1, ev)) :
    ((e = Exit.aborted ∨ e = Exit.faulted) ∧ ∀ off val, Event.store off val ∈ ev → val = 1) ∨
    (e = Exit.returned Retval.PTL_FAIL ∧ s1.done_initializing = 1 ∧ s1.failure = 1 ∧
      ev.filter Event.isStore = []) ∨
    (e = Exit.returned Retval.PTL_OK ∧ s1.done_initializing = 1 ∧ s1.failure = s.failure ∧
      s1.init_ref_count = 1 ∧
      ∃ pre t loads,
        waitSiblings w s1.proc_number s1.comm_pad_size fuel s1.num_siblings 0 0 =
          some (some t, loads) ∧
        ev = pre ++ Event.store s1.proc_number 1 :: (loads ++ [Event.set_done]) ∧
        ∀ x, x ∈ pre → x.isSetup = true) := by
  rw [PtlInit_leader ndebug w fuel s hrace] at h
  rcases leaderInit_cases ndebug w fuel _ _ h with ⟨_, s0, hr, _, _⟩ | ⟨_, ho⟩
  · simp only [exit_fail, exit_fail_fast, Prod.mk.injEq] at hr
    obtain ⟨rfl, rfl, rfl⟩ := hr
    exact Or.inr (Or.inl ⟨rfl, rfl, rfl, rfl⟩)
  · rcases openCommPad_cases ndebug w fuel _ _ e s1 ev ho with h1 | h1 | ⟨he, hs, hx⟩
    · exact Or.inl h1
    · exact Or.inr (Or.inl h1)
    · subst hs
      exact Or.inr (Or.inr ⟨he, rfl, rfl, rfl, hx⟩)

/-- Every way in which a call of `PtlInit` that observes a non-zero count can end. -/
theorem PtlInit_follower_cases (ndebug : Bool) (w : World) (fuel : Nat) (s : State)
    (e : Exit) (s1 : State) (ev : List Event) (hrace : s.init_ref_count ≠ 0)
    (h : PtlInit ndebug w fuel s = some (e, s1, ev)) :
    s.done_initializing ≠ 0 ∧ 0 < fuel ∧ ev = [] ∧
      s1.done_initializing = s.done_initializing ∧ s1.failure = s.failure ∧
      s1.comm_pad = s.comm_pad := by
  have hd : s.done_initializing ≠ 0 := by
    intro hd
    rw [PtlInit_follower_spins ndebug w fuel s hrace hd] at h
    exact Option.noConfusion h
  have hf : 0 < fuel := by
    rcases Nat.eq_zero_or_pos fuel with h0 | h0
    · subst h0
      simp [PtlInit, atomicInc_fst, hrace, waitDone] at h
    · exact h0
  rw [PtlInit_follower ndebug w fuel s hrace hd hf] at h
  by_cases hfail : s.failure = 0
  · rw [if_pos hfail] at h
    simp only [Option.some.injEq, Prod.mk.injEq] at h
    obtain ⟨_, rfl, rfl⟩ := h
    exact ⟨hd, hf, rfl, rfl, rfl, rfl⟩
  · rw [if_neg hfail] at h
    simp only [exit_fail_fast, Option.some.injEq, Prod.mk.injEq] at h
    obtain ⟨_, rfl, rfl⟩ := h
    exact ⟨hd, hf, rfl, rfl, rfl, rfl⟩

/-! ## `strtol` converts exactly the texts that start with an integer -/

theorem skipSpace_decomp : ∀ cs : List Char,
    ∃ ws, cs = ws ++ (skipSpace cs).2 ∧ ∀ c, c ∈ ws → isspace c = true := by
  intro cs
  induction cs with
  | nil => exact ⟨[], rfl, by simp⟩
  | cons c cs ih =>
    by_cases hc : isspace c = true
    · obtain ⟨ws, h1, h2⟩ := ih
      refine ⟨c :: ws, ?_, ?_⟩
      · simp only [skipSpace, hc, if_true, List.cons_append]
        rw [← h1]
      · intro x hx
        rcases List.mem_cons.mp hx with rfl | hx
        · exact hc
        · exact h2 x hx
    · exact ⟨[], by simp [skipSpace, hc], by simp⟩

theorem skipSpace_append (ws tail : List Char) (hws : ∀ c, c ∈ ws → isspace c = true)
    (htail : ∀ c rest, tail = c :: rest → isspace c = false) :
    (skipSpace (ws ++ tail)).2 = tail := by
  induction ws with
  | nil =>
    cases tail with
    | nil => rfl
    | cons c rest => simp [skipSpace, htail c rest rfl]
  | cons x ws ih =>
    have hx : isspace x = true := hws x (List.mem_cons_self _ _)
    simp only [List.cons_append, skipSpace, hx, if_true]
    exact ih (fun c hc => hws c (List.mem_cons_of_mem _ hc))

theorem readSign_decomp (cs : List Char) :
    ∃ sg, cs = sg ++ (readSign cs).2.2 ∧
      (sg = [] ∨ sg = [Char.ofNat 43] ∨ sg = [Char.ofNat 45]) := by
  cases cs with
  | nil => exact ⟨[], rfl, Or.inl rfl⟩
  | cons c cs =>
    by_cases h45 : c.toNat = 45
    · refine ⟨[Char.ofNat 45], ?_, Or.inr (Or.inr rfl)⟩
      have hc : c = Char.ofNat 45 := by rw [← h45, Char.ofNat_toNat]
      simp [readSign, h45, hc]
    · by_cases h43 : c.toNat = 43
      · refine ⟨[Char.ofNat 43], ?_, Or.inr (Or.inl rfl)⟩
        have hc : c = Char.ofNat 43 := by rw [← h43, Char.ofNat_toNat]
        simp [readSign, h43, hc]
      · exact ⟨[], by simp [readSign, h45, h43], Or.inl rfl⟩

theorem isdigit_range (c : Char) (h : isdigit c = true) : 48 ≤ c.toNat ∧ c.toNat ≤ 57 := by
  simpa [isdigit] using h

theorem isdigit_not_space (c : Char) (h : isdigit c = true) : isspace c = false := by
  obtain ⟨h1, h2⟩ := isdigit_range c h
  have a : ¬ c.toNat = 32 := by omega
  have b : ¬ (9 ≤ c.toNat ∧ c.toNat ≤ 13) := by omega
  simp [isspace, a]
  omega

theorem readSign_digit (d : Char) (rest : List Char) (h : isdigit d = true) :
    (readSign (d :: rest)).2.2 = d :: rest := by
  obtain ⟨h1, h2⟩ := isdigit_range d h
  have a : ¬ d.toNat = 45 := by omega
  have b : ¬ d.toNat = 43 := by omega
  simp [readSign, a, b]

theorem readDigits_pos_iff (acc : Nat) (cs : List Char) :
    (readDigits acc cs).2 ≠ 0 ↔ ∃ d rest, cs = d :: rest ∧ isdigit d = true := by
  cases cs with
  | nil => simp [readDigits]
  | cons c cs =>
    by_cases hc : isdigit c = true
    · simp [readDigits, hc]
    · simp [readDigits, hc]

theorem strtol_end (str : String) :
    (strtol str).2 ≠ 0 ↔
      (readDigits 0 (readSign (skipSpace str.data).2).2.2).2 ≠ 0 := by
  unfold strtol
  simp only
  by_cases h : (readDigits 0 (readSign (skipSpace str.data).2).2.2).2 = 0
  · rw [if_pos h]
    simp [h]
  · rw [if_neg h]
    simp only [ne_eq, h, not_false_eq_true, iff_true]
    omega

/-- `strtol` performs a conversion exactly when a decimal integer can be read at the start of
the text. -/
theorem strtol_converts_iff (str : String) :
    (strtol str).2 ≠ 0 ↔ StartsWithInteger str.data := by
  rw [strtol_end, readDigits_pos_iff]
  constructor
  · rintro ⟨d, rest, hd, hdig⟩
    obtain ⟨ws, hws, hsp⟩ := skipSpace_decomp str.data
    obtain ⟨sg, hsg, hopt⟩ := readSign_decomp (skipSpace str.data).2
    refine ⟨ws, sg, d, rest, ?_, hsp, hopt, hdig⟩
    rw [← hd, ← hsg]
    exact hws
  · rintro ⟨ws, sg, d, rest, hcs, hws, hsg, hdig⟩
    refine ⟨d, rest, ?_, hdig⟩
    have hskip : (skipSpace str.data).2 = sg ++ d :: rest := by
      rw [hcs]
      apply skipSpace_append ws _ hws
      intro c r hc
      rcases hsg with rfl | rfl | rfl
      · simp only [List.nil_append, List.cons.injEq] at hc
        rw [← hc.1]
        exact isdigit_not_space d hdig
      · simp only [List.singleton_append, List.cons.injEq] at hc
        rw [← hc.1]
        decide
      · simp only [List.singleton_append, List.cons.injEq] at hc
        rw [← hc.1]
        decide
    rw [hskip]
    rcases hsg with rfl | rfl | rfl
    · exact readSign_digit d rest hdig
    · rfl
    · rfl

theorem unparseable_not_ok (v : Option String) (h : unparseable v) : ¬ numericOk v := by
  rintro ⟨str, hs, hconv⟩
  obtain ⟨str1, hs1, hno⟩ := h
  rw [hs, Option.some.injEq] at hs1
  subst hs1
  exact hno ((strtol_converts_iff str).mp hconv)

theorem badEnv_not_valid (w : World) (h : badEnv w) : ¬ validEnv w := by
  rintro ⟨⟨name, hn⟩, h1, h2, h3⟩
  rcases h with h | h | h | h | h | h | h
  · rw [hn] at h
    exact Option.noConfusion h
  · obtain ⟨x, hx, _⟩ := h1
    rw [hx] at h
    exact Option.noConfusion h
  · obtain ⟨x, hx, _⟩ := h2
    rw [hx] at h
    exact Option.noConfusion h
  · obtain ⟨x, hx, _⟩ := h3
    rw [hx] at h
    exact Option.noConfusion h
  · exact unparseable_not_ok _ h h1
  · exact unparseable_not_ok _ h h2
  · exact unparseable_not_ok _ h h3

theorem valid_or_bad (w : World) : validEnv w ∨ badEnv w := by
  by_cases hv : validEnv w
  · exact Or.inl hv
  · right
    unfold badEnv
    by_contra hb
    simp only [not_or] at hb
    obtain ⟨b0, b1, b2, b3, b4, b5, b6⟩ := hb
    have key : ∀ v : Option String, v ≠ none → ¬ unparseable v → numericOk v := by
      intro v hv1 hv2
      cases v with
      | none => exact absurd rfl hv1
      | some str =>
        refine ⟨str, rfl, ?_⟩
        rw [strtol_converts_iff]
        by_contra hno
        exact hv2 ⟨str, rfl, hno⟩
    apply hv
    refine ⟨?_, key _ b1 b4, key _ b2 b5, key _ b3 b6⟩
    cases hn : w.getenv "PORTALS4_SHM_NAME" with
    | none => exact absurd hn b0
    | some name => exact ⟨name, rfl⟩

/-- Text after a leading integer does not make `strtol` fail: the conversion stops at it. -/
theorem strtol_stops_at_trailing_text : strtol "12abc" = (12, 2) ∧ strtol "abc" = (0, 0) := by
  constructor <;> decide

/-! ## Between calls -/

theorem PtlFini_facts (ndebug : Bool) (w : World) (s : State) :
    (PtlFini ndebug w s).2.1.done_initializing = s.done_initializing ∧
    (PtlFini ndebug w s).2.1.failure = s.failure ∧
    (s.init_ref_count = 0 → (PtlFini ndebug w s).2.1 = s ∧ (PtlFini ndebug w s).2.2 = []) := by
  unfold PtlFini
  simp only
  refine ⟨?_, ?_, ?_⟩
  · split_ifs <;> rfl
  · split_ifs <;> rfl
  · intro h0
    split_ifs <;> exact ⟨rfl, rfl⟩

/-- Between calls, outstanding references imply that the completion marker is set. -/
theorem reachable_done (ndebug : Bool) (s : State) (h : Reachable ndebug s) :
    s.init_ref_count ≠ 0 → s.done_initializing ≠ 0 := by
  induction h with
  | initial => intro h; exact absurd rfl h
  | init s s1 w fuel r ev _ hcall ih =>
    intro _
    by_cases hrace : s.init_ref_count = 0
    · rcases PtlInit_leader_cases ndebug w fuel s _ s1 ev hrace hcall with h | h | h
      · rcases h.1 with h | h <;> exact Exit.noConfusion h
      · rw [h.2.1]; decide
      · rw [h.2.1]; decide
    · obtain ⟨hd, _, _, hd1, _, _⟩ := PtlInit_follower_cases ndebug w fuel s _ s1 ev hrace hcall
      rw [hd1]
      exact hd
  | fini s s1 w ev _ hcall ih =>
    intro hc
    obtain ⟨hd, _, h0⟩ := PtlFini_facts ndebug w s
    rw [hcall] at hd h0
    simp only at hd h0
    rw [hd]
    apply ih
    intro hz
    exact hc (by rw [(h0 hz).1]; exact hz)

/-! ## The concrete worlds are well-formed -/

theorem demoWorld_valid : validEnv demoWorld :=
  ⟨⟨"/yod", rfl⟩, ⟨"2", rfl, by decide⟩, ⟨"0", rfl, by decide⟩, ⟨"4096", rfl, by decide⟩⟩

theorem demoWorld_arrive : siblingsArrive demoWorld := by
  intro i _ _
  refine ⟨2, fun t ht => ?_⟩
  simp [demoWorld, ht]

/-! ## Arithmetic of the bootstrap -/

theorem maxrankOf_cast (N : Nat) (hN : 1 ≤ N) (hNmax : N ≤ INT_MAX) :
    maxrankOf (N : Int) = N - 1 := by
  unfold maxrankOf toU64
  unfold INT_MAX at hNmax
  omega

theorem rankOf_cast (r : Nat) (hr : r < 2 ^ 64) : rankOf (r : Int) = r := by
  unfold rankOf toU64
  omega

theorem table_fits (sz N : Nat) (hNmax : N ≤ INT_MAX) (hszmax : sz ≤ 2 ^ 32) :
    N * sz < 2 ^ 64 := by
  unfold INT_MAX at hNmax
  calc N * sz ≤ (2 ^ 31 - 1) * 2 ^ 32 := Nat.mul_le_mul hNmax hszmax
    _ < 2 ^ 64 := by norm_num

theorem tableLength_cast (sz N : Nat) (hN : 1 ≤ N) (hNmax : N ≤ INT_MAX)
    (hszmax : sz ≤ 2 ^ 32) : tableLength sz (maxrankOf (N : Int)) = N * sz := by
  have hfit := table_fits sz N hNmax hszmax
  have hN64 : N < 2 ^ 64 := by unfold INT_MAX at hNmax; omega
  rw [maxrankOf_cast N hN hNmax]
  unfold tableLength
  have h1 : N - 1 + 1 = N := by omega
  rw [h1, Nat.mod_eq_of_lt hN64, Nat.mod_eq_of_lt hfit]

theorem slot_le (sz N r : Nat) (hr : r < N) : r * sz + sz ≤ N * sz := by
  calc r * sz + sz = (r + 1) * sz := by ring
    _ ≤ N * sz := Nat.mul_le_mul_right sz hr

theorem slot_unique (sz r x k : Nat) (hk : k < sz) (h1 : x * sz ≤ r * sz + k)
    (h2 : r * sz + k < x * sz + sz) : r = x := by
  rcases Nat.lt_trichotomy r x with h | h | h
  · have := slot_le sz x r h
    omega
  · exact h
  · have := slot_le sz r x h
    omega

theorem slot_disjoint (sz r x : Nat) (h : r ≠ x) :
    r * sz + sz ≤ x * sz ∨ x * sz + sz ≤ r * sz := by
  rcases Nat.lt_or_gt_of_ne h with h | h
  · exact Or.inl (slot_le sz x r h)
  · exact Or.inr (slot_le sz r x h)

theorem slot_cover (sz N off : Nat) (hsz : 0 < sz) (hoff : off < N * sz) :
    ∃ r, r < N ∧ r * sz ≤ off ∧ off < r * sz + sz := by
  refine ⟨off / sz, ?_, Nat.div_mul_le_self off sz, ?_⟩
  · exact (Nat.div_lt_iff_lt_mul hsz).mpr hoff
  · have := Nat.lt_div_mul_add (a := off) hsz
    omega

theorem gather_spec (sz N : Nat) (addr : Nat → Nat → Nat) (hfit : N * sz < 2 ^ 64) :
    ∀ (order : List Nat) (buf : Buffer), buf.length = N * sz → (∀ r, r ∈ order → r < N) →
      (gather sz addr order buf).length = N * sz ∧
      ∀ r k, r < N → k < sz →
        (gather sz addr order buf).byte (r * sz + k) =
          if r ∈ order then addr r k else buf.byte (r * sz + k) := by
  intro order
  induction order with
  | nil => intro buf hlen _; exact ⟨hlen, fun r k _ _ => by simp [gather]⟩
  | cons x xs ih =>
    intro buf hlen hall
    have hx : x < N := hall x (List.mem_cons_self _ _)
    have hslot := slot_le sz N x hx
    have hmod : (x * sz) % 2 ^ 64 = x * sz := Nat.mod_eq_of_lt (by omega)
    have hdel : deliver (addr x) buf (contributorPut sz x) =
        { buf with byte := fun i =>
            if x * sz ≤ i ∧ i < x * sz + sz then addr x (0 + (i - x * sz)) else buf.byte i } := by
      have hin : x * sz + sz ≤ buf.length := by omega
      simp only [contributorPut, deliver, hmod, if_pos hin]
    obtain ⟨h1, h2⟩ := ih (deliver (addr x) buf (contributorPut sz x))
      (by rw [hdel]; exact hlen) (fun r hr => hall r (List.mem_cons_of_mem _ hr))
    refine ⟨h1, ?_⟩
    intro r k hr hk
    have := h2 r k hr hk
    simp only [gather]
    rw [this]
    by_cases hrxs : r ∈ xs
    · simp [hrxs]
    · rw [if_neg hrxs, hdel]
      by_cases hrx : r = x
      · subst hrx
        have hcond : r * sz ≤ r * sz + k ∧ r * sz + k < r * sz + sz := by omega
        simp [hcond]
      · have hcond : ¬ (x * sz ≤ r * sz + k ∧ r * sz + k < x * sz + sz) := by
          rintro ⟨a, b⟩
          exact hrx (slot_unique sz r x k hk a b)
        simp [hcond, hrx, hrxs]

/-- A rank outside the region: the write of the arrival flag at offset 100000 of a region of
4112 bytes ends the process, and nothing is stored. -/
theorem rank_outside_region_faults :
    logOf (run false [Call.init farWorld 2] State.initial) =
      some [(Exit.faulted,
        [Event.shm_open "/yod" 3, Event.mmap 4112 3 4096000, Event.close 3 0])] := by
  decide

/-! ## A cycle of `K` acquisitions and `K` releases with assertions compiled in -/

/-- What the reference counting achieves when assertions are compiled in.  Start from the
initial process state with a valid launch environment whose rank and process count lie inside the
region, `shm_open`, `mmap`, `close` and `munmap` succeeding and every sibling flag arriving.  For
every `K` with `1 ≤ K < 2^32` there is an amount of fuel from which on `K` calls of `PtlInit`
followed by `K` calls of `PtlFini` run as follows:
the first `PtlInit` calls `mmap` exactly once and never `munmap`, the other `PtlInit` calls do
nothing visible, every `PtlInit` returns `PTL_OK`; after the `K` acquisitions and any `j < K`
releases `comm_pad` is still the mapped address and `K - j` references are outstanding, those
releases having done nothing visible; and the `K`-th `PtlFini` calls `munmap` once on the mapped
region and leaves `comm_pad` null with no reference outstanding. -/
theorem cycle_with_assertions (w : World) (K : Nat) (hK : 1 ≤ K) (hK32 : K < UINT_MOD)
    (henv : validEnv w) (hopen : 0 ≤ envFd w) (hmap : envAddr w ≠ MAP_FAILED)
    (hnn : envAddr w ≠ NULL) (hclose : w.close (envFd w) = 0)
    (hunmap : w.munmap (envAddr w) (regionSize w) = 0)
    (hrank : envNum w "PORTALS4_RANK" < regionSize w)
    (hsib : envNum w "PORTALS4_NUM_PROCS" ≤ regionSize w) (harr : siblingsArrive w) :
    ∃ fuel0, ∀ fuel, fuel0 ≤ fuel → ∃ evL,
      evL.filter Event.isMmap = [Event.mmap (regionSize w) (envFd w) (envAddr w)] ∧
      evL.filter Event.isMunmap = [] ∧
      (∀ j, j < K → ∃ sj,
        run false (List.replicate K (Call.init w fuel) ++ List.replicate j (Call.fini w))
            State.initial =
          some ((Exit.returned Retval.PTL_OK, evL) ::
                  List.replicate (K - 1) (Exit.returned Retval.PTL_OK, []) ++
                List.replicate j (Exit.finished, []), sj) ∧
        sj.comm_pad = envAddr w ∧ sj.comm_pad ≠ NULL ∧ sj.init_ref_count = K - j) ∧
      (∃ sK,
        run false (List.replicate K (Call.init w fuel) ++ List.replicate K (Call.fini w))
            State.initial =
          some ((Exit.returned Retval.PTL_OK, evL) ::
                  List.replicate (K - 1) (Exit.returned Retval.PTL_OK, []) ++
                List.replicate (K - 1) (Exit.finished, []) ++
                [(Exit.finished, [Event.munmap (envAddr w) (regionSize w) 0])], sK) ∧
        sK.comm_pad = NULL ∧ sK.init_ref_count = 0) := by
  obtain ⟨T, hT⟩ := view_arrive w (envNum w "PORTALS4_RANK") (envNum w "PORTALS4_NUM_PROCS") harr
  refine ⟨T + 1, fun fuel hfuel => ?_⟩
  obtain ⟨loads, hlead, hloads⟩ := PtlInit_leader_ok w fuel T henv hopen hmap hclose
    hrank hsib (by omega) hT
  obtain ⟨hf1, hf2⟩ := filter_isMmap_loads loads hloads
  have hcall : call false (Call.init w fuel) State.initial =
      some (Exit.returned Retval.PTL_OK, held w 1, leaderTrace w loads) := hlead
  obtain ⟨n, rfl⟩ : ∃ n, K = n + 1 := ⟨K - 1, by omega⟩
  have hinits : ∀ rest, run false (List.replicate (n + 1) (Call.init w fuel) ++ rest)
      State.initial = (run false rest (held w (n + 1))).map (fun r =>
        ((Exit.returned Retval.PTL_OK, leaderTrace w loads) ::
          List.replicate n (Exit.returned Retval.PTL_OK, []) ++ r.1, r.2)) := by
    intro rest
    rw [List.replicate_succ, List.cons_append, run_cons false _ _ _ _ _ _ hcall (by simp) (by simp),
      run_followers false w fuel (by omega) rest n 1 (le_refl 1) (by omega), Option.map_map]
    have harith : 1 + n = n + 1 := by omega
    rw [harith]
    rfl
  refine ⟨leaderTrace w loads, ?_, ?_, ?_, ?_⟩
  · simp [leaderTrace, List.filter_append, hf1, List.filter, Event.isMmap]
  · simp [leaderTrace, List.filter_append, hf2, List.filter, Event.isMunmap]
  · intro j hj
    refine ⟨held w (n + 1 - j), ?_, rfl, hnn, rfl⟩
    have h2 := run_finis false w [] j (n + 1) hj hK32
    simp only [List.append_nil] at h2
    have h1 := hinits (List.replicate j (Call.fini w))
    rw [h1, h2]
    simp [run]
  · refine ⟨{ held w 0 with comm_pad := NULL }, ?_, rfl, rfl⟩
    have hlast : call false (Call.fini w) (held w 1) =
        some (Exit.finished, { held w 0 with comm_pad := NULL },
          [Event.munmap (envAddr w) (regionSize w) 0]) := by
      simp [call, PtlFini_last w hunmap]
    have h2 := run_finis false w [Call.fini w] n (n + 1) (by omega) hK32
    have hsplit : List.replicate (n + 1) (Call.fini w) =
        List.replicate n (Call.fini w) ++ [Call.fini w] := by
      rw [List.replicate_succ']
    have h1 := hinits (List.replicate (n + 1) (Call.fini w))
    rw [h1, hsplit, h2]
    have harith : n + 1 - n = 1 := by omega
    rw [harith, run_cons false _ _ _ _ _ _ hlast (by simp) (by simp)]
    simp [run]

/-- Two acquisitions and two releases in `demoWorld`, assertions compiled in. -/
theorem cycle_with_assertions_demo :
    validEnv demoWorld ∧ siblingsArrive demoWorld ∧
    ∃ fuel0, ∀ fuel, fuel0 ≤ fuel → ∃ evL,
      evL.filter Event.isMmap = [Event.mmap (regionSize demoWorld) (envFd demoWorld)
        (envAddr demoWorld)] ∧
      evL.filter Event.isMunmap = [] ∧
      (∀ j, j < 2 → ∃ sj,
        run false (List.replicate 2 (Call.init demoWorld fuel) ++
            List.replicate j (Call.fini demoWorld)) State.initial =
          some ((Exit.returned Retval.PTL_OK, evL) ::
                  List.replicate (2 - 1) (Exit.returned Retval.PTL_OK, []) ++
                List.replicate j (Exit.finished, []), sj) ∧
        sj.comm_pad = envAddr demoWorld ∧ sj.comm_pad ≠ NULL ∧ sj.init_ref_count = 2 - j) ∧
      (∃ sK,
        run false (List.replicate 2 (Call.init demoWorld fuel) ++
            List.replicate 2 (Call.fini demoWorld)) State.initial =
          some ((Exit.returned Retval.PTL_OK, evL) ::
                  List.replicate (2 - 1) (Exit.returned Retval.PTL_OK, []) ++
                List.replicate (2 - 1) (Exit.finished, []) ++
                [(Exit.finished, [Event.munmap (envAddr demoWorld) (regionSize demoWorld) 0])],
                sK) ∧
        sK.comm_pad = NULL ∧ sK.init_ref_count = 0) :=
  ⟨demoWorld_valid, demoWorld_arrive,
    cycle_with_assertions demoWorld 2 (by decide) (by decide) demoWorld_valid (by decide)
      (by decide) (by decide) (by decide) (by decide) (by decide) (by decide) demoWorld_arrive⟩

/-! ## Claims -/

/-- C1 (idempotent acquire/release), evaluation at the failing input.  In a build without
assertions (`NDEBUG`), with a valid launch environment and every system call succeeding, one
`PtlInit` followed by one `PtlFini` maps the region, returns `PTL_OK` and later sets `comm_pad`
to null with no reference outstanding, but neither call ever calls `munmap` (nor `close`): the
source writes both calls inside `assert`.  The same holds for two acquisitions and two releases.
In the build with assertions the same two calls do unmap the region, once, in `PtlFini`. -/
theorem C1_no_munmap_without_assertions :
    logOf (run true [Call.init demoWorld 2, Call.fini demoWorld] State.initial) =
      some [(Exit.returned Retval.PTL_OK, demoTraceNdebug), (Exit.finished, [])] ∧
    (finalState (run true [Call.init demoWorld 2, Call.fini demoWorld] State.initial)).map
      (fun s => (s.init_ref_count, s.comm_pad)) = some (0, NULL) ∧
    logOf (run true [Call.init demoWorld 2, Call.init demoWorld 2, Call.fini demoWorld,
        Call.fini demoWorld] State.initial) =
      some [(Exit.returned Retval.PTL_OK, demoTraceNdebug), (Exit.returned Retval.PTL_OK, []),
            (Exit.finished, []), (Exit.finished, [])] ∧
    demoTraceNdebug.filter Event.isMunmap = [] ∧
    logOf (run false [Call.init demoWorld 2, Call.fini demoWorld] State.initial) =
      some [(Exit.returned Retval.PTL_OK, demoTrace),
            (Exit.finished, [Event.munmap 4096000 12288 0])] := by
  refine ⟨?_, ?_, ?_, ?_, ?_⟩ <;> decide


/-- C2 (leader uniqueness).  A call of `PtlInit` runs the mapping-creation and barrier logic
exactly when its atomic increment observes a previous reference count of 0.  A call that observes
a previous count of at least 1 performs no `shm_open`, `mmap` or any other visible action and
leaves `comm_pad`, `comm_pad_size`, `num_siblings`, `proc_number`, `per_proc_comm_buf_size` and
`firstpagesize` unchanged; once the completion marker is set (which is the case between calls
whenever a reference is outstanding) it returns, with `PTL_OK` exactly when the failure marker is
clear and `PTL_FAIL` otherwise; while the completion marker is clear it keeps waiting. -/
theorem C2_leader_uniqueness (ndebug : Bool) (w : World) (fuel : Nat) (s : State)
    (hfuel : 0 < fuel) :
    (s.init_ref_count = 0 →
      PtlInit ndebug w fuel s = leaderInit ndebug w fuel { s with init_ref_count := 1 }) ∧
    (s.init_ref_count ≠ 0 → s.done_initializing ≠ 0 →
      ∃ r s1, PtlInit ndebug w fuel s = some (Exit.returned r, s1, []) ∧
        s1.comm_pad = s.comm_pad ∧ s1.comm_pad_size = s.comm_pad_size ∧
        s1.num_siblings = s.num_siblings ∧ s1.proc_number = s.proc_number ∧
        s1.per_proc_comm_buf_size = s.per_proc_comm_buf_size ∧
        s1.firstpagesize = s.firstpagesize ∧
        (r = Retval.PTL_OK ↔ s.failure = 0) ∧ (r = Retval.PTL_FAIL ↔ s.failure ≠ 0)) ∧
    (s.init_ref_count ≠ 0 → s.done_initializing = 0 → PtlInit ndebug w fuel s = none) ∧
    (Reachable ndebug s → s.init_ref_count ≠ 0 → s.done_initializing ≠ 0) := by
  refine ⟨PtlInit_leader ndebug w fuel s, ?_, PtlInit_follower_spins ndebug w fuel s,
    reachable_done ndebug s⟩
  intro hrace hdone
  rw [PtlInit_follower ndebug w fuel s hrace hdone hfuel]
  by_cases hfail : s.failure = 0
  · rw [if_pos hfail]
    exact ⟨Retval.PTL_OK, _, rfl, rfl, rfl, rfl, rfl, rfl, rfl, by simp [hfail], by simp [hfail]⟩
  · rw [if_neg hfail]
    exact ⟨Retval.PTL_FAIL, _, rfl, rfl, rfl, rfl, rfl, rfl, rfl, by simp [hfail],
      by simp [hfail]⟩

/-- Witness of C2: a second `PtlInit` while one reference is held in `demoWorld`. -/
theorem C2_leader_uniqueness_witness :
    (held demoWorld 1).init_ref_count ≠ 0 ∧ (held demoWorld 1).done_initializing ≠ 0 ∧
    ∃ r s1, PtlInit false demoWorld 1 (held demoWorld 1) = some (Exit.returned r, s1, []) ∧
      s1.comm_pad = (held demoWorld 1).comm_pad ∧
      (r = Retval.PTL_OK ↔ (held demoWorld 1).failure = 0) :=
  ⟨by decide, by decide, by
    obtain ⟨r, s1, h, hc, _, _, _, _, _, hok, _⟩ :=
      (C2_leader_uniqueness false demoWorld 1 (held demoWorld 1) (by decide)).2.1
        (by decide) (by decide)
    exact ⟨r, s1, h, hc, hok⟩⟩

/-- C6 (configuration errors are fatal).  Take any launch environment in which one of
`PORTALS4_SHM_NAME`, `PORTALS4_NUM_PROCS`, `PORTALS4_RANK`, `PORTALS4_COMM_SIZE` is unset, or in
which one of the three numeric variables has a value at whose start no decimal integer can be
read (the case in which `strtol` converts nothing).  Then a leader call of `PtlInit`, whatever
the build and the fuel, returns `PTL_FAIL`, sets the failure marker, performs no `shm_open` and
no `mmap` (its only actions are the two marker writes), gives its reference back and leaves
`comm_pad` as it was, so null when it was null. -/
theorem C6_configuration_errors_fatal (ndebug : Bool) (w : World) (fuel : Nat) (s : State)
    (hrace : s.init_ref_count = 0) (hbad : badEnv w) :
    ∃ s1 ev, PtlInit ndebug w fuel s = some (Exit.returned Retval.PTL_FAIL, s1, ev) ∧
      s1.failure = 1 ∧ ev = [Event.set_failure, Event.set_done] ∧
      ev.filter Event.isShmOpen = [] ∧ ev.filter Event.isMmap = [] ∧
      s1.comm_pad = s.comm_pad ∧ (s.comm_pad = NULL → s1.comm_pad = NULL) ∧
      s1.init_ref_count = 0 := by
  obtain ⟨s0, h0, hc, hr⟩ := leaderInit_invalid ndebug w fuel { s with init_ref_count := 1 }
    (badEnv_not_valid w hbad)
  have h1 : (PtlInternalAtomicInc 1 (-1)).2 = 0 := by decide
  refine ⟨(exit_fail s0 []).2.1, (exit_fail s0 []).2.2, ?_, rfl, rfl, rfl, rfl, hc,
    fun hn => ?_, ?_⟩
  · rw [PtlInit_leader ndebug w fuel s hrace, h0]
    rfl
  · rw [← hn]
    exact hc
  · have hr1 : s0.init_ref_count = 1 := hr
    simp [exit_fail, exit_fail_fast, hr1, h1]

/-- Witness of C6: the first `PtlInit` of a process started without any launch environment. -/
theorem C6_configuration_errors_fatal_witness :
    badEnv bareWorld ∧
    ∃ s1 ev, PtlInit false bareWorld 0 State.initial =
        some (Exit.returned Retval.PTL_FAIL, s1, ev) ∧
      s1.failure = 1 ∧ ev = [Event.set_failure, Event.set_done] ∧
      ev.filter Event.isShmOpen = [] ∧ ev.filter Event.isMmap = [] ∧
      s1.comm_pad = State.initial.comm_pad ∧ (State.initial.comm_pad = NULL → s1.comm_pad = NULL) ∧
      s1.init_ref_count = 0 :=
  ⟨Or.inl rfl, C6_configuration_errors_fatal false bareWorld 0 State.initial rfl (Or.inl rfl)⟩

/-- C7 (arrival barrier).  In every call of `PtlInit` that ends, each write to the shared region
stores the value 1, so no arrival flag is ever cleared.  When the call is a leader and returns
`PTL_OK`, its actions are, in order: system calls that set the mapping up, the write of its own
arrival flag `comm_pad[proc_number] = 1`, reads of the region among which, for every rank `i`
below `num_siblings`, there is one that saw `comm_pad[i]` non-zero, and last of all, after those
reads, the write of the completion marker. -/
theorem C7_arrival_barrier (ndebug : Bool) (w : World) (fuel : Nat) (s : State)
    (e : Exit) (s1 : State) (ev : List Event)
    (h : PtlInit ndebug w fuel s = some (e, s1, ev)) :
    (∀ off val, Event.store off val ∈ ev → val = 1) ∧
    (s.init_ref_count = 0 → e = Exit.returned Retval.PTL_OK →
      ∃ pre loads, ev = pre ++ Event.store s1.proc_number 1 :: (loads ++ [Event.set_done]) ∧
        (∀ x, x ∈ pre → x.isSetup = true) ∧
        (∀ x, x ∈ loads → ∃ j v, x = Event.load j v) ∧
        (∀ i, i < s1.num_siblings → ∃ v, v ≠ 0 ∧ Event.load i v ∈ loads) ∧
        s1.done_initializing = 1) := by
  by_cases hrace : s.init_ref_count = 0
  · have hnostore : ∀ l : List Event, l.filter Event.isStore = [] →
        ∀ off val, Event.store off val ∈ l → val = 1 := by
      intro l hl off val hmem
      have : Event.store off val ∈ l.filter Event.isStore :=
        List.mem_filter.mpr ⟨hmem, rfl⟩
      rw [hl] at this
      exact absurd this (List.not_mem_nil _)
    rcases PtlInit_leader_cases ndebug w fuel s e s1 ev hrace h with
      ⟨he, hs⟩ | ⟨he, _, _, hs⟩ | ⟨he, hd, _, _, pre, t, loads, hw, hev, hpre⟩
    · refine ⟨hs, fun _ hok => ?_⟩
      rcases he with he | he <;> rw [he] at hok <;> exact Exit.noConfusion hok
    · refine ⟨hnostore ev hs, fun _ hok => ?_⟩
      rw [he] at hok
      simp at hok
    · obtain ⟨hl1, hl2⟩ :=
        waitSiblings_loads w s1.proc_number s1.comm_pad_size fuel s1.num_siblings 0 0 _ hw
      refine ⟨?_, fun _ _ => ⟨pre, loads, hev, hpre, hl1,
        fun i hi => hl2 t rfl i (by omega) (by omega), hd⟩⟩
      intro off val hmem
      rw [hev] at hmem
      rcases List.mem_append.mp hmem with hm | hm
      · have := hpre _ hm
        simp [Event.isSetup] at this
      · rcases List.mem_cons.mp hm with hm | hm
        · injection hm with _ hv
        · rcases List.mem_append.mp hm with hm | hm
          · obtain ⟨j, v, hjv⟩ := hl1 _ hm
            exact Event.noConfusion hjv
          · simp at hm
  · obtain ⟨_, _, hev, _⟩ := PtlInit_follower_cases ndebug w fuel s e s1 ev hrace h
    subst hev
    exact ⟨fun off val hmem => absurd hmem (List.not_mem_nil _), fun h0 => absurd h0 hrace⟩

/-- Witness of C7: the first `PtlInit` in `demoWorld`. -/
theorem C7_arrival_barrier_witness :
    PtlInit false demoWorld 2 State.initial =
      some (Exit.returned Retval.PTL_OK, held demoWorld 1, demoTrace) ∧
    (∀ off val, Event.store off val ∈ demoTrace → val = 1) ∧
    ∃ pre loads,
      demoTrace = pre ++ Event.store (held demoWorld 1).proc_number 1 ::
        (loads ++ [Event.set_done]) ∧
      (∀ x, x ∈ pre → x.isSetup = true) ∧
      (∀ x, x ∈ loads → ∃ j v, x = Event.load j v) ∧
      (∀ i, i < (held demoWorld 1).num_siblings → ∃ v, v ≠ 0 ∧ Event.load i v ∈ loads) ∧
      (held demoWorld 1).done_initializing = 1 :=
  ⟨rfl,
   (C7_arrival_barrier false demoWorld 2 State.initial _ (held demoWorld 1) demoTrace rfl).1,
   (C7_arrival_barrier false demoWorld 2 State.initial _ (held demoWorld 1) demoTrace rfl).2
     rfl rfl⟩

/-- C3 (failure consistency), evaluation at the failing input.  A first `PtlInit` without launch
environment fails and gives its reference back; the next `PtlInit`, in a valid environment, is
the leader of a new cycle and returns `PTL_OK`; a third `PtlInit` joins that cycle as a follower
(it observes a count of 1) and returns `PTL_FAIL`, because the failure marker written in the
first cycle is still set. -/
theorem C3_follower_disagrees_with_leader :
    exits (run false [Call.init bareWorld 2, Call.init demoWorld 2, Call.init demoWorld 2]
      State.initial) =
      some [Exit.returned Retval.PTL_FAIL, Exit.returned Retval.PTL_OK,
            Exit.returned Retval.PTL_FAIL] ∧
    (finalState (run false [Call.init bareWorld 2, Call.init demoWorld 2] State.initial)).map
      (fun s => (s.init_ref_count, s.failure)) = some (1, 1) := by
  constructor <;> decide

/-- C4 (reset on last release), evaluation at the failing input.  After one `PtlInit` and the
matching `PtlFini` the count is 0 and `comm_pad` is null, but the completion marker is still set,
so the state differs from the initial one; and when an earlier cycle had failed, the failure
marker is still set after the last release, so that the following cycle (`PTL_OK` for the leader,
`PTL_FAIL` for a follower) differs from the first cycle of a fresh process (`PTL_OK` for both). -/
theorem C4_markers_survive_last_release :
    (finalState (run false [Call.init demoWorld 2, Call.fini demoWorld] State.initial)).map
      (fun s => (s.init_ref_count, s.comm_pad, s.done_initializing)) = some (0, NULL, 1) ∧
    State.initial.done_initializing = 0 ∧
    (finalState (run false [Call.init bareWorld 2, Call.init demoWorld 2, Call.fini demoWorld]
      State.initial)).map (fun s => (s.init_ref_count, s.comm_pad, s.failure)) =
        some (0, NULL, 1) ∧
    exits (run false [Call.init bareWorld 2, Call.init demoWorld 2, Call.fini demoWorld,
      Call.init demoWorld 2, Call.init demoWorld 2] State.initial) =
      some [Exit.returned Retval.PTL_FAIL, Exit.returned Retval.PTL_OK, Exit.finished,
            Exit.returned Retval.PTL_OK, Exit.returned Retval.PTL_FAIL] ∧
    exits (run false [Call.init demoWorld 2, Call.init demoWorld 2] State.initial) =
      some [Exit.returned Retval.PTL_OK, Exit.returned Retval.PTL_OK] := by
  refine ⟨?_, ?_, ?_, ?_, ?_⟩ <;> decide

/-- C5 as stated fails: in a build without assertions a `PtlFini` with no outstanding reference
returns normally, having done and reported nothing. -/
theorem C5_silent_when_assertions_off :
    State.initial.init_ref_count = 0 ∧
    PtlFini true demoWorld State.initial = (Exit.finished, State.initial, []) :=
  ⟨rfl, rfl⟩

/-- C5 (lifecycle misuse), amended.  For every state with `init_ref_count = 0` a call of
`PtlFini` changes nothing (the count does not wrap below zero, `comm_pad` is untouched) and calls
no `munmap`.  With assertions compiled in, the call does not return: it stops at the failed
`assert(init_ref_count > 0)`.  With assertions compiled out it returns normally. -/
theorem C5_release_without_reference (ndebug : Bool) (w : World) (s : State)
    (h0 : s.init_ref_count = 0) :
    PtlFini ndebug w s = (if ndebug then Exit.finished else Exit.aborted, s, []) := by
  cases ndebug <;> simp [PtlFini, h0]

/-- Witness of C5 (amended): `PtlFini` as the first call of a process, with assertions. -/
theorem C5_release_without_reference_witness :
    PtlFini false demoWorld State.initial = (Exit.aborted, State.initial, []) :=
  C5_release_without_reference false demoWorld State.initial rfl

/-- C10 (mapping/reference-count invariant), evaluation at the failing input.  When `mmap` fails
the leader returns `PTL_FAIL` with the count back at 0 but `comm_pad` equal to `MAP_FAILED`, not
null; the next leader then stops at `assert(comm_pad == NULL)`. -/
theorem C10_map_failed_left_in_comm_pad :
    exits (run false [Call.init noMapWorld 2] State.initial) =
      some [Exit.returned Retval.PTL_FAIL] ∧
    (finalState (run false [Call.init noMapWorld 2] State.initial)).map
      (fun s => (s.init_ref_count, s.comm_pad)) = some (0, MAP_FAILED) ∧
    MAP_FAILED ≠ NULL ∧
    run false [Call.init noMapWorld 2, Call.init demoWorld 2] State.initial =
      some ([(Exit.returned Retval.PTL_FAIL,
              [Event.shm_open "/yod" 3, Event.mmap 12288 3 MAP_FAILED, Event.set_failure,
               Event.set_done]),
             (Exit.aborted, [])],
            { (configured demoWorld State.initial) with
              comm_pad := MAP_FAILED, init_ref_count := 1, failure := 1,
              done_initializing := 1 }) := by
  refine ⟨?_, ?_, ?_, ?_⟩
  · decide
  · decide
  · decide
  · rfl

/-- C8 (gather completeness).  Let `N` with `1 ≤ N ≤ INT_MAX` be the process count read by
`atoi`, and let an id take `sz` bytes, `0 < sz ≤ 2^32`.  The collector appends a landing buffer
of `N * sz` bytes and waits for `N` puts.  The contributor of rank `r < N` issues exactly one
put: `sz` bytes to remote offset `r * sz`.  These `N` ranges lie inside the buffer, are disjoint
for distinct ranks, and every offset of the buffer lies in one of them.  Hence, once the puts of
the ranks `0, …, N-1` have been delivered, in whatever order, the buffer still has `N * sz`
bytes and slot `r` holds the id of rank `r`. -/
theorem C8_gather_complete (sz N : Nat) (hN : 1 ≤ N) (hNmax : N ≤ INT_MAX) (hsz : 0 < sz)
    (hszmax : sz ≤ 2 ^ 32) :
    ApiCall.PtlLEAppend 0 (N * sz) false Counter.le_ct ∈ collector sz (maxrankOf (N : Int)) ∧
    ApiCall.noFailures Counter.le_ct N ∈ collector sz (maxrankOf (N : Int)) ∧
    (∀ r pid : Nat, r < N →
      (contributor sz (rankOf (r : Int)) (maxrankOf (N : Int)) pid).filter ApiCall.isPut =
        [ApiCall.PtlPut 0 sz Target.COLLECTOR 0 0 (r * sz) 0] ∧
      r * sz + sz ≤ N * sz) ∧
    (∀ r x, r < N → x < N → r ≠ x → r * sz + sz ≤ x * sz ∨ x * sz + sz ≤ r * sz) ∧
    (∀ off, off < N * sz → ∃ r, r < N ∧ r * sz ≤ off ∧ off < r * sz + sz) ∧
    (∀ (addr : Nat → Nat → Nat) (order : List Nat) (buf : Buffer),
      buf.length = N * sz → (∀ r, r ∈ order ↔ r < N) →
      (gather sz addr (order.map (fun r : Nat => rankOf (r : Int))) buf).length = N * sz ∧
      ∀ r k, r < N → k < sz →
        (gather sz addr (order.map (fun r : Nat => rankOf (r : Int))) buf).byte (r * sz + k) =
          addr r k) := by
  have hfit := table_fits sz N hNmax hszmax
  have hlen := tableLength_cast sz N hN hNmax hszmax
  have hmax := maxrankOf_cast N hN hNmax
  have hN64 : N < 2 ^ 64 := by unfold INT_MAX at hNmax; omega
  have hthr : collectorThreshold (maxrankOf (N : Int)) = N := by
    rw [hmax]
    unfold collectorThreshold
    have h1 : N - 1 + 1 = N := by omega
    rw [h1, Nat.mod_eq_of_lt hN64]
  refine ⟨?_, ?_, ?_, ?_, ?_, ?_⟩
  · simp [collector, hlen]
  · simp [collector, hthr]
  · intro r pid hr
    have hslot := slot_le sz N r hr
    have hmod : (r * sz) % 2 ^ 64 = r * sz := Nat.mod_eq_of_lt (by omega)
    have hlt : r * sz < 18446744073709551616 := by omega
    refine ⟨?_, hslot⟩
    rw [rankOf_cast r (by omega)]
    simp [contributor, contributorPut, List.filter, ApiCall.isPut, hmod, hlt]
  · intro r x _ _ hne
    exact slot_disjoint sz r x hne
  · intro off hoff
    exact slot_cover sz N off hsz hoff
  · intro addr order buf hbuf hord
    have hmap : order.map (fun r : Nat => rankOf (r : Int)) = order := by
      conv_rhs => rw [← List.map_id order]
      apply List.map_congr_left
      intro r hr
      exact rankOf_cast r (by have := (hord r).mp hr; omega)
    rw [hmap]
    obtain ⟨h1, h2⟩ := gather_spec sz N addr hfit order buf hbuf (fun r hr => (hord r).mp hr)
    refine ⟨h1, ?_⟩
    intro r k hr hk
    rw [h2 r k hr hk, if_pos ((hord r).mpr hr)]

/-- Witness of C8: four processes with 16-byte ids. -/
theorem C8_gather_complete_witness :
    ApiCall.PtlLEAppend 0 (4 * 16) false Counter.le_ct ∈ collector 16 (maxrankOf ((4 : Nat) : Int)) ∧
    ApiCall.noFailures Counter.le_ct 4 ∈ collector 16 (maxrankOf ((4 : Nat) : Int)) ∧
    (∀ r pid : Nat, r < 4 →
      (contributor 16 (rankOf (r : Int)) (maxrankOf ((4 : Nat) : Int)) pid).filter ApiCall.isPut =
        [ApiCall.PtlPut 0 16 Target.COLLECTOR 0 0 (r * 16) 0] ∧
      r * 16 + 16 ≤ 4 * 16) ∧
    (∀ r x, r < 4 → x < 4 → r ≠ x → r * 16 + 16 ≤ x * 16 ∨ x * 16 + 16 ≤ r * 16) ∧
    (∀ off, off < 4 * 16 → ∃ r, r < 4 ∧ r * 16 ≤ off ∧ off < r * 16 + 16) ∧
    (∀ (addr : Nat → Nat → Nat) (order : List Nat) (buf : Buffer),
      buf.length = 4 * 16 → (∀ r, r ∈ order ↔ r < 4) →
      (gather 16 addr (order.map (fun r : Nat => rankOf (r : Int))) buf).length = 4 * 16 ∧
      ∀ r k, r < 4 → k < 16 →
        (gather 16 addr (order.map (fun r : Nat => rankOf (r : Int))) buf).byte (r * 16 + k) =
          addr r k) :=
  C8_gather_complete 16 4 (by decide) (by decide) (by decide) (by decide)

/-- C9 (output contract of the bootstrap), evaluation at the failing input.  For the contributor
of rank 2 (pid 7) among four processes, 16-byte ids: `atoi` of `PORTALS4_NUM_PROCS` is 4 and the
table has `maxrank + 1 = 4` entries, but the only call of the logical `PtlNIInit` made by `main`
passes `maxrank = 3` as its map size. -/
theorem C9_map_size_is_maxrank :
    (bootEnv "PORTALS4_NUM_PROCS").map atoi = some 4 ∧
    mappingEntries (maxrankOf 4) = 4 ∧
    (main 16 bootEnv 7).map (fun calls => calls.filter ApiCall.isLogicalInit) =
      some [ApiCall.PtlNIInit true 7 3] := by
  refine ⟨by decide, by decide, by decide⟩

end Portals4
